import Mathlib

/-
Verification of the media transcoding session controller
(media/libmediatranscoding, TranscodingSessionController) and of the
SimulatedTranscoder event loop (services/mediatranscoding).

The controller implementation file is not part of the source slice; only
its header (TranscodingSessionController.h) is.  The header fixes the data
model (session map, per-uid session queues, uid sorted list with an offline
iterator, current session pointer, resource-lost flag, and the three-value
session state enum).  The operational behaviour of the controller below is
therefore modelled from the specification (sections 4.2-4.7 of the design
document): the driver issues commands and updates only the current-session
pointer; all session state transitions happen in the transcoder event sink,
with the preconditions of the callback table.

The SimulatedTranscoder model is a direct embedding of
SimulatedTranscoder.cpp (threadLoop, lines 101-168).
-/

set_option maxRecDepth 4096

namespace TranscodingModel

/-- Session key: std::pair<ClientIdType, SessionIdType> from the header. -/
abbrev SessionKeyType := Int × Int

/-- Session::State from TranscodingSessionController.h (lines 87-91):
the enum has exactly the three values NOT_STARTED, RUNNING, PAUSED. -/
inductive SessionState where
  | NOT_STARTED
  | RUNNING
  | PAUSED
deriving DecidableEq, Repr

/-- Session record from TranscodingSessionController.h (lines 84-95).
The request blob is opaque and the client callback is a non-owning handle
not observable from the controller state, so the request is a bare number
and the callback is omitted. -/
structure Session where
  key : SessionKeyType
  uid : Int
  state : SessionState
  lastProgress : Int
  request : Nat
deriving DecidableEq, Repr

/-- Outbound transcoder commands (TranscoderInterface): start, pause,
resume, stop. -/
inductive TranscoderCmd where
  | start (k : SessionKeyType)
  | pause (k : SessionKeyType)
  | resume (k : SessionKeyType)
  | stop (k : SessionKeyType)
deriving DecidableEq, Repr

/-- Controller state from TranscodingSessionController.h (lines 101-117):
mSessionMap, mSessionQueues, mUidSortedList (with the offline uid -1 kept
as a sentinel member), mCurrentSession, mResourceLost.  Maps are modelled
as association lists. -/
structure Controller where
  sessionMap : List (SessionKeyType × Session)
  sessionQueues : List (Int × List SessionKeyType)
  uidSortedList : List Int
  currentSession : Option SessionKeyType
  resourceLost : Bool
deriving DecidableEq, Repr

/-- The offline pseudo-uid (uid == -1 marks the offline queue). -/
def offlineUid : Int := -1

/-- Lookup in the session map (std::map::find). -/
def findSession : List (SessionKeyType × Session) → SessionKeyType → Option Session
  | [], _ => none
  | e :: rest, k => if e.1 = k then some e.2 else findSession rest k

/-- Erase a key from the session map (std::map::erase). -/
def eraseSession : List (SessionKeyType × Session) → SessionKeyType →
    List (SessionKeyType × Session)
  | [], _ => []
  | e :: rest, k => if e.1 = k then rest else e :: eraseSession rest k

/-- Update the session stored under a key in place. -/
def updateSessionF : List (SessionKeyType × Session) → SessionKeyType →
    (Session → Session) → List (SessionKeyType × Session)
  | [], _, _ => []
  | e :: rest, k, f =>
      if e.1 = k then (e.1, f e.2) :: rest else e :: updateSessionF rest k f

/-- Set the state of the session stored under a key. -/
def updateState (m : List (SessionKeyType × Session)) (k : SessionKeyType)
    (st : SessionState) : List (SessionKeyType × Session) :=
  updateSessionF m k (fun s => { s with state := st })

/-- Lookup of a uid's queue (std::map::find on mSessionQueues). -/
def getQueue : List (Int × List SessionKeyType) → Int → Option (List SessionKeyType)
  | [], _ => none
  | e :: rest, u => if e.1 = u then some e.2 else getQueue rest u

/-- Append a key to the tail of a uid's queue, creating the queue when
absent (spec 4.2, enqueue). -/
def enqueueQueues : List (Int × List SessionKeyType) → Int → SessionKeyType →
    List (Int × List SessionKeyType)
  | [], u, k => [(u, [k])]
  | e :: rest, u, k =>
      if e.1 = u then (e.1, e.2 ++ [k]) :: rest else e :: enqueueQueues rest u k

/-- Remove the first occurrence of a key from a key list. -/
def eraseOne : List SessionKeyType → SessionKeyType → List SessionKeyType
  | [], _ => []
  | x :: rest, k => if x = k then rest else x :: eraseOne rest k

/-- Remove a key from a uid's queue, dropping the queue entry when it
becomes empty (spec 4.2, remove; empty queues are removed eagerly). -/
def removeFromQueues : List (Int × List SessionKeyType) → Int → SessionKeyType →
    List (Int × List SessionKeyType)
  | [], _, _ => []
  | e :: rest, u, k =>
      if e.1 = u then
        (if eraseOne e.2 k = [] then rest else (e.1, eraseOne e.2 k) :: rest)
      else e :: removeFromQueues rest u k

/-- Remove the first occurrence of a uid from the sorted uid list. -/
def eraseUid : List Int → Int → List Int
  | [], _ => []
  | x :: rest, u => if x = u then rest else x :: eraseUid rest u

/-- Insert a new uid into the sorted uid list, just in front of the offline
pseudo-uid (spec 4.2: a new uid is scheduled behind every known foreground
uid but ahead of the offline queue). -/
def insertBeforeOffline : List Int → Int → List Int
  | [], u => [u]
  | x :: rest, u => if x = offlineUid then u :: x :: rest else x :: insertBeforeOffline rest u

/-- Concatenation of all queues (every queued key, in queue order). -/
def joinQueues : List (Int × List SessionKeyType) → List SessionKeyType
  | [] => []
  | e :: rest => e.2 ++ joinQueues rest

/-- All keys sitting in some uid queue. -/
def allQueueKeys (c : Controller) : List SessionKeyType :=
  joinQueues c.sessionQueues

/-- Number of occurrences of a key in a key list. -/
def countKey : List SessionKeyType → SessionKeyType → Nat
  | [], _ => 0
  | x :: rest, k => (if x = k then 1 else 0) + countKey rest k

/-- Walk the uid ordering and return the head of the first non-empty queue
(spec 4.3, the selector; source: getTopSession_l). -/
def firstQueueHead : List Int → List (Int × List SessionKeyType) → Option SessionKeyType
  | [], _ => none
  | u :: rest, qs =>
      match getQueue qs u with
      | some (k :: _) => some k
      | _ => firstQueueHead rest qs

/-- The session that should be running next (spec 4.3). -/
def getTopSession (c : Controller) : Option SessionKeyType :=
  firstQueueHead c.uidSortedList c.sessionQueues

/-- Head of a given uid's queue, if the queue exists. -/
def headOfUidQueue (c : Controller) (u : Int) : Option SessionKeyType :=
  match getQueue c.sessionQueues u with
  | some q => q.head?
  | none => none

/-- Split the uid ordering into the uids being promoted and the rest,
keeping relative order on both sides. -/
def splitPromoted : List Int → List Int → List Int × List Int
  | [], _ => ([], [])
  | u :: rest, uids =>
      let p := splitPromoted rest uids
      if u ≠ offlineUid ∧ u ∈ uids then (u :: p.1, p.2) else (p.1, u :: p.2)

/-- Modelled from the spec: move_uids_to_top (spec 4.2).  Every uid of the
notified set already present in the ordering is moved to the front (ahead
of the offline pseudo-uid); with preserveTopUid the uid at the head before
the call stays at the head.  The source declares moveUidsToTop_l in the
header only. -/
def moveUidsToTop (order : List Int) (uids : List Int) (preserveTopUid : Bool) :
    List Int :=
  if preserveTopUid then
    match order.head? with
    | some h =>
        h :: eraseUid ((splitPromoted order uids).1 ++ (splitPromoted order uids).2) h
    | none => (splitPromoted order uids).1 ++ (splitPromoted order uids).2
  else (splitPromoted order uids).1 ++ (splitPromoted order uids).2

/-- The pause command of one driver pass (spec 4.4 step 3): when the
current session exists and is RUNNING it is displaced with a pause. -/
def driverPauseCmds (c : Controller) : List TranscoderCmd :=
  match c.currentSession with
  | some j =>
      match findSession c.sessionMap j with
      | some s => if s.state = SessionState.RUNNING then [TranscoderCmd.pause j] else []
      | none => []
  | none => []

/-- The start/resume command of one driver pass (spec 4.4 step 3): the new
target is started when NOT_STARTED and resumed when PAUSED. -/
def driverStartCmds (c : Controller) : List TranscoderCmd :=
  match getTopSession c with
  | some t =>
      match findSession c.sessionMap t with
      | some s =>
          if s.state = SessionState.NOT_STARTED then [TranscoderCmd.start t]
          else if s.state = SessionState.PAUSED then [TranscoderCmd.resume t]
          else []
      | none => []
  | none => []

/-- Modelled from the spec: the driver updateCurrentSession_l (spec 4.4),
declared in the header but whose implementation file is absent.  With the
resource-lost flag set it does nothing.  Otherwise it compares the current
session to the selector output; on equality it re-issues resume for a
paused top session; on inequality it issues pause for a displaced running
session first, then start or resume for the new target, and repoints
current.  Per the spec the driver is optimistic: it changes no session
state itself (states change in the event sink on acknowledgment). -/
def updateCurrentSession (c : Controller) : Controller × List TranscoderCmd :=
  if c.resourceLost then (c, [])
  else if c.currentSession = getTopSession c then
    match getTopSession c with
    | some t =>
        match findSession c.sessionMap t with
        | some s =>
            if s.state = SessionState.PAUSED then (c, [TranscoderCmd.resume t]) else (c, [])
        | none => (c, [])
    | none => (c, [])
  else
    ({ c with currentSession := getTopSession c },
     driverPauseCmds c ++ driverStartCmds c)

/-- The session map after the displacement half of a synchronous driver
pass: the displaced RUNNING current session has its pause acknowledged
immediately, so it is PAUSED. -/
def pausedMapSync (c : Controller) : List (SessionKeyType × Session) :=
  match c.currentSession with
  | some j =>
      match findSession c.sessionMap j with
      | some s =>
          if s.state = SessionState.RUNNING then
            updateState c.sessionMap j SessionState.PAUSED
          else c.sessionMap
      | none => c.sessionMap
  | none => c.sessionMap

/-- The session map after the full synchronous driver pass on diverging
current and target: on top of the displacement, the started or resumed
target has its acknowledgment applied immediately, so it is RUNNING. -/
def startedMapSync (c : Controller) : List (SessionKeyType × Session) :=
  match getTopSession c with
  | some t =>
      match findSession (pausedMapSync c) t with
      | some s =>
          if s.state = SessionState.NOT_STARTED ∨ s.state = SessionState.PAUSED then
            updateState (pausedMapSync c) t SessionState.RUNNING
          else pausedMapSync c
      | none => pausedMapSync c
  | none => pausedMapSync c

/-- Modelled from the spec: the driver under acknowledgment-synchronous
semantics, in which the transcoder acknowledges every start/pause/resume
command before the controller processes any further operation.  It is the
same driver, with the effect of the acknowledgment callback (the state
transition of the event-sink table, spec 4.5) applied at the point the
command is issued. -/
def updateCurrentSessionSync (c : Controller) : Controller × List TranscoderCmd :=
  if c.resourceLost then (c, [])
  else if c.currentSession = getTopSession c then
    match getTopSession c with
    | some t =>
        match findSession c.sessionMap t with
        | some s =>
            if s.state = SessionState.PAUSED then
              ({ c with sessionMap := updateState c.sessionMap t SessionState.RUNNING },
               [TranscoderCmd.resume t])
            else (c, [])
        | none => (c, [])
    | none => (c, [])
  else
    ({ c with sessionMap := startedMapSync c, currentSession := getTopSession c },
     driverPauseCmds c ++ driverStartCmds c)

/-- Fresh session record created by submit (state NOT_STARTED, progress 0). -/
def mkSession (k : SessionKeyType) (uid : Int) (req : Nat) : Session :=
  { key := k, uid := uid, state := SessionState.NOT_STARTED, lastProgress := 0, request := req }

/-- Insert a fresh session into the registry. -/
def insertSession (c : Controller) (k : SessionKeyType) (uid : Int) (req : Nat) :
    Controller :=
  { c with sessionMap := c.sessionMap ++ [(k, mkSession k uid req)] }

/-- Enqueue a key under a uid, inserting the uid into the ordering (in
front of the offline pseudo-uid) when absent. -/
def enqueueSession (c : Controller) (uid : Int) (k : SessionKeyType) : Controller :=
  { c with
    sessionQueues := enqueueQueues c.sessionQueues uid k,
    uidSortedList :=
      if uid ∈ c.uidSortedList then c.uidSortedList
      else insertBeforeOffline c.uidSortedList uid }

/-- Modelled from the spec: submit (spec 4.7), declared in the header.
Fails (false, no state change, no commands) when the key already exists;
otherwise inserts into the registry, enqueues under the supplied uid, and
invokes the driver. -/
def submitD (drv : Controller → Controller × List TranscoderCmd) (c : Controller)
    (clientId sessionId uid : Int) (req : Nat) :
    Controller × Bool × List TranscoderCmd :=
  let k : SessionKeyType := (clientId, sessionId)
  match findSession c.sessionMap k with
  | some _ => (c, false, [])
  | none =>
      let c2 := enqueueSession (insertSession c k uid req) uid k
      let r := drv c2
      (r.1, true, r.2)

/-- Modelled from the spec: removeSession_l, declared in the header.
Removes the key from its uid's queue (dropping the queue and, for a
non-offline uid, its ordering slot when emptied), erases the registry
record, and clears the current pointer when it pointed at the key. -/
def removeSession (c : Controller) (k : SessionKeyType) : Controller :=
  match findSession c.sessionMap k with
  | none => c
  | some s =>
      let qs := removeFromQueues c.sessionQueues s.uid k
      { c with
        sessionMap := eraseSession c.sessionMap k,
        sessionQueues := qs,
        uidSortedList :=
          if s.uid ≠ offlineUid ∧ getQueue qs s.uid = none then
            eraseUid c.uidSortedList s.uid
          else c.uidSortedList,
        currentSession :=
          if c.currentSession = some k then none else c.currentSession }

/-- Modelled from the spec: cancel (spec 4.7), declared in the header.
Fails (false) when the key is absent; otherwise issues stop and clears
current when the session is current, removes it from queue and registry,
and re-invokes the driver. -/
def cancelD (drv : Controller → Controller × List TranscoderCmd) (c : Controller)
    (clientId sessionId : Int) : Controller × Bool × List TranscoderCmd :=
  let k : SessionKeyType := (clientId, sessionId)
  match findSession c.sessionMap k with
  | none => (c, false, [])
  | some _ =>
      let stopCmds := if c.currentSession = some k then [TranscoderCmd.stop k] else []
      let r := drv (removeSession c k)
      (r.1, true, stopCmds ++ r.2)

/-- Modelled from the spec: onStarted (event-sink table, spec 4.5).
Precondition: the session exists and its state is NOT_STARTED or PAUSED;
then the state becomes RUNNING.  Otherwise the callback is dropped. -/
def onStarted (c : Controller) (k : SessionKeyType) : Controller :=
  match findSession c.sessionMap k with
  | some s =>
      if s.state = SessionState.NOT_STARTED ∨ s.state = SessionState.PAUSED then
        { c with sessionMap := updateState c.sessionMap k SessionState.RUNNING }
      else c
  | none => c

/-- Modelled from the spec: onPaused (spec 4.5).  Precondition: the session
exists in state RUNNING; then the state becomes PAUSED and the driver is
re-invoked.  Otherwise dropped. -/
def onPausedD (drv : Controller → Controller × List TranscoderCmd) (c : Controller)
    (k : SessionKeyType) : Controller × List TranscoderCmd :=
  match findSession c.sessionMap k with
  | some s =>
      if s.state = SessionState.RUNNING then
        drv { c with sessionMap := updateState c.sessionMap k SessionState.PAUSED }
      else (c, [])
  | none => (c, [])

/-- Modelled from the spec: onResumed (spec 4.5).  Precondition: the
session exists in state PAUSED; then RUNNING.  Otherwise dropped. -/
def onResumed (c : Controller) (k : SessionKeyType) : Controller :=
  match findSession c.sessionMap k with
  | some s =>
      if s.state = SessionState.PAUSED then
        { c with sessionMap := updateState c.sessionMap k SessionState.RUNNING }
      else c
  | none => c

/-- Modelled from the spec: onFinish (spec 4.5).  Precondition: the session
exists; it is removed from queue and registry (clearing current when it was
current) and the driver is re-invoked.  Otherwise dropped. -/
def onFinishD (drv : Controller → Controller × List TranscoderCmd) (c : Controller)
    (k : SessionKeyType) : Controller × List TranscoderCmd :=
  match findSession c.sessionMap k with
  | some _ => drv (removeSession c k)
  | none => (c, [])

/-- Modelled from the spec: onError (spec 4.5): same removal as finish. -/
def onErrorD (drv : Controller → Controller × List TranscoderCmd) (c : Controller)
    (k : SessionKeyType) (_err : Nat) : Controller × List TranscoderCmd :=
  match findSession c.sessionMap k with
  | some _ => drv (removeSession c k)
  | none => (c, [])

/-- Modelled from the spec: onProgressUpdate (spec 4.5).  Precondition: the
session exists; lastProgress is set to the delivered value.  Otherwise
dropped. -/
def onProgressUpdate (c : Controller) (k : SessionKeyType) (p : Int) : Controller :=
  match findSession c.sessionMap k with
  | some _ =>
      { c with sessionMap := updateSessionF c.sessionMap k (fun s => { s with lastProgress := p }) }
  | none => c

/-- Modelled from the spec: onResourceLost (spec 4.5).  Precondition: a
session is current; the resource-lost flag is set and, when the current
session is RUNNING, pause is issued (the session stays on its queue and
current is kept; the state changes only on the onPaused acknowledgment). -/
def onResourceLost (c : Controller) : Controller × List TranscoderCmd :=
  match c.currentSession with
  | some j =>
      match findSession c.sessionMap j with
      | some s =>
          ({ c with resourceLost := true },
           if s.state = SessionState.RUNNING then [TranscoderCmd.pause j] else [])
      | none => ({ c with resourceLost := true }, [])
  | none => (c, [])

/-- Modelled from the spec: onResourceLost under acknowledgment-synchronous
semantics: the pause acknowledgment is applied at issue time. -/
def onResourceLostSync (c : Controller) : Controller × List TranscoderCmd :=
  match c.currentSession with
  | some j =>
      match findSession c.sessionMap j with
      | some s =>
          if s.state = SessionState.RUNNING then
            ({ c with
                resourceLost := true,
                sessionMap := updateState c.sessionMap j SessionState.PAUSED },
             [TranscoderCmd.pause j])
          else ({ c with resourceLost := true }, [])
      | none => ({ c with resourceLost := true }, [])
  | none => (c, [])

/-- Modelled from the spec: onTopUidsChanged (spec 4.6): move the notified
uids to the top, preserving the head uid when a session is current, then
re-invoke the driver. -/
def onTopUidsChangedD (drv : Controller → Controller × List TranscoderCmd)
    (c : Controller) (uids : List Int) : Controller × List TranscoderCmd :=
  drv { c with
        uidSortedList := moveUidsToTop c.uidSortedList uids c.currentSession.isSome }

/-- Modelled from the spec: onResourceAvailable (spec 4.6): clear the
resource-lost flag and re-invoke the driver. -/
def onResourceAvailableD (drv : Controller → Controller × List TranscoderCmd)
    (c : Controller) : Controller × List TranscoderCmd :=
  drv { c with resourceLost := false }

/-- The operations of the controller: client API, transcoder callbacks and
policy callbacks. -/
inductive ControllerOp where
  | submit (clientId sessionId uid : Int) (req : Nat)
  | cancel (clientId sessionId : Int)
  | started (clientId sessionId : Int)
  | paused (clientId sessionId : Int)
  | resumed (clientId sessionId : Int)
  | finish (clientId sessionId : Int)
  | error (clientId sessionId : Int) (err : Nat)
  | progress (clientId sessionId : Int) (p : Int)
  | topUids (uids : List Int)
  | resourceLost
  | resourceAvailable
deriving Repr

/-- One operation of the asynchronous (faithful) controller model. -/
def applyOp (c : Controller) : ControllerOp → Controller
  | ControllerOp.submit a b u r => (submitD updateCurrentSession c a b u r).1
  | ControllerOp.cancel a b => (cancelD updateCurrentSession c a b).1
  | ControllerOp.started a b => onStarted c (a, b)
  | ControllerOp.paused a b => (onPausedD updateCurrentSession c (a, b)).1
  | ControllerOp.resumed a b => onResumed c (a, b)
  | ControllerOp.finish a b => (onFinishD updateCurrentSession c (a, b)).1
  | ControllerOp.error a b e => (onErrorD updateCurrentSession c (a, b) e).1
  | ControllerOp.progress a b p => onProgressUpdate c (a, b) p
  | ControllerOp.topUids uids => (onTopUidsChangedD updateCurrentSession c uids).1
  | ControllerOp.resourceLost => (onResourceLost c).1
  | ControllerOp.resourceAvailable => (onResourceAvailableD updateCurrentSession c).1

/-- The operations available under acknowledgment-synchronous semantics:
start/pause/resume acknowledgments are absorbed into command issue, so only
the remaining entry points appear. -/
inductive SyncOp where
  | submit (clientId sessionId uid : Int) (req : Nat)
  | cancel (clientId sessionId : Int)
  | finish (clientId sessionId : Int)
  | error (clientId sessionId : Int) (err : Nat)
  | progress (clientId sessionId : Int) (p : Int)
  | topUids (uids : List Int)
  | resourceLost
  | resourceAvailable
deriving Repr

/-- One operation of the acknowledgment-synchronous controller model. -/
def applySyncOp (c : Controller) : SyncOp → Controller
  | SyncOp.submit a b u r => (submitD updateCurrentSessionSync c a b u r).1
  | SyncOp.cancel a b => (cancelD updateCurrentSessionSync c a b).1
  | SyncOp.finish a b => (onFinishD updateCurrentSessionSync c (a, b)).1
  | SyncOp.error a b e => (onErrorD updateCurrentSessionSync c (a, b) e).1
  | SyncOp.progress a b p => onProgressUpdate c (a, b) p
  | SyncOp.topUids uids => (onTopUidsChangedD updateCurrentSessionSync c uids).1
  | SyncOp.resourceLost => (onResourceLostSync c).1
  | SyncOp.resourceAvailable => (onResourceAvailableD updateCurrentSessionSync c).1

/-- The controller at construction: empty registry and queues, the offline
pseudo-uid alone in the ordering, no current session, no resource loss. -/
def initialController : Controller :=
  { sessionMap := [], sessionQueues := [], uidSortedList := [offlineUid],
    currentSession := none, resourceLost := false }

/-- Run a sequence of operations from the initial controller. -/
def runOps (ops : List ControllerOp) : Controller :=
  ops.foldl applyOp initialController

/-- Run a sequence of synchronous-semantics operations from the initial
controller. -/
def runSyncOps (ops : List SyncOp) : Controller :=
  ops.foldl applySyncOp initialController

/-- Keys of the registry. -/
def mapKeys (c : Controller) : List SessionKeyType :=
  c.sessionMap.map Prod.fst

/-- At most one session of the registry is in state RUNNING. -/
def atMostOneRunning (c : Controller) : Prop :=
  ∀ e1 ∈ c.sessionMap, ∀ e2 ∈ c.sessionMap,
    e1.2.state = SessionState.RUNNING → e2.2.state = SessionState.RUNNING → e1.1 = e2.1

/-- Every session of the registry sits in exactly one uid queue at exactly
one position: its key occurs exactly once in the concatenation of all
queues. -/
def eachSessionQueuedOnce (c : Controller) : Prop :=
  ∀ e ∈ c.sessionMap, countKey (allQueueKeys c) e.1 = 1

/-- Every RUNNING session of the registry is at the head of its uid's
queue. -/
def runningAtHead (c : Controller) : Prop :=
  ∀ e ∈ c.sessionMap, e.2.state = SessionState.RUNNING →
    headOfUidQueue c e.2.uid = some e.1

/-- The stored progress of a session, when present. -/
def lastProgressOf (c : Controller) (k : SessionKeyType) : Option Int :=
  (findSession c.sessionMap k).map Session.lastProgress

/-- Structural well-formedness of the controller state: registry keys are
unique; queue uids are unique; the uid ordering has no duplicates, contains
the offline uid, and lists exactly the uids owning (non-empty) queues plus
the offline uid; every queued key belongs to the registry; every registry
key is queued exactly once; a key only sits in the queue of its session's
uid. -/
def QueueInvProp (c : Controller) : Prop :=
  (mapKeys c).Nodup ∧
  (c.sessionQueues.map Prod.fst).Nodup ∧
  c.uidSortedList.Nodup ∧
  offlineUid ∈ c.uidSortedList ∧
  (∀ e ∈ c.sessionQueues, e.2 ≠ []) ∧
  (∀ e ∈ c.sessionQueues, e.1 ∈ c.uidSortedList) ∧
  (∀ u ∈ c.uidSortedList, u ≠ offlineUid → getQueue c.sessionQueues u ≠ none) ∧
  (∀ k ∈ allQueueKeys c, k ∈ mapKeys c) ∧
  (∀ k ∈ mapKeys c, countKey (allQueueKeys c) k = 1) ∧
  (∀ e ∈ c.sessionMap, ∀ qe ∈ c.sessionQueues, e.1 ∈ qe.2 → qe.1 = e.2.uid)

/-- Running-session invariant of the acknowledgment-synchronous model:
every RUNNING session is the current session and is at the head of its
uid's queue. -/
def RunInvProp (c : Controller) : Prop :=
  (∀ e ∈ c.sessionMap, e.2.state = SessionState.RUNNING →
      c.currentSession = some e.1) ∧
  (∀ e ∈ c.sessionMap, e.2.state = SessionState.RUNNING →
      headOfUidQueue c e.2.uid = some e.1)

/-- Recognizer for pause commands. -/
def isPause : TranscoderCmd → Bool
  | TranscoderCmd.pause _ => true
  | _ => false

/-- Recognizer for start or resume commands. -/
def isStartOrResume : TranscoderCmd → Bool
  | TranscoderCmd.start _ => true
  | TranscoderCmd.resume _ => true
  | _ => false

/-- Modelled from the spec: the six session-state names of the data-model
section (spec section 3). -/
inductive SpecSessionState where
  | NotStarted
  | Running
  | Paused
  | Finished
  | Cancelled
  | Failed
deriving DecidableEq, Repr

/-- The spec-level name of a stored session state (cf. the header's
sessionStateToString). -/
def toSpecState : SessionState → SpecSessionState
  | SessionState.NOT_STARTED => SpecSessionState.NotStarted
  | SessionState.RUNNING => SpecSessionState.Running
  | SessionState.PAUSED => SpecSessionState.Paused

instance (c : Controller) : Decidable (QueueInvProp c) := by
  unfold QueueInvProp; infer_instance

instance (c : Controller) : Decidable (RunInvProp c) := by
  unfold RunInvProp; infer_instance

instance (c : Controller) : Decidable (atMostOneRunning c) := by
  unfold atMostOneRunning; infer_instance

instance (c : Controller) : Decidable (eachSessionQueuedOnce c) := by
  unfold eachSessionQueuedOnce; infer_instance

instance (c : Controller) : Decidable (runningAtHead c) := by
  unfold runningAtHead; infer_instance

end TranscodingModel

namespace SimulatedTranscoderModel

/-- Event types of SimulatedTranscoder (SimulatedTranscoder.cpp uses
Event::Start, Event::Pause, Event::Resume, Event::Stop). -/
inductive SimEventType where
  | Start
  | Pause
  | Resume
  | Stop
deriving DecidableEq, Repr

/-- A queued event: type, session identity, and whether a runnable was
attached (start/pause/resume attach one, stop queues nullptr). -/
structure SimEvent where
  type : SimEventType
  clientId : Int
  sessionId : Int
  hasRunnable : Bool
deriving DecidableEq, Repr

/-- The thread-local state of SimulatedTranscoder::threadLoop: the running
flag, the remaining session life in microseconds, the wall-clock time at
which the current running stretch began, the identity of the last
start/resume event, plus the member mSessionProcessingTimeMs (in
milliseconds) read when a Start event is handled. -/
structure SimState where
  running : Bool
  remainingUs : Int
  lastRunningTime : Int
  lastRunningEvent : Int × Int
  processingTimeMs : Int
deriving DecidableEq, Repr

/-- SimulatedTranscoder::start (lines 50-55): the member processing time is
overwritten only when the request carries a positive test-config time. -/
def setProcessingTime (s : SimState) (requestTimeMs : Option Int) : SimState :=
  match requestTimeMs with
  | some t => if t > 0 then { s with processingTimeMs := t } else s
  | none => s

/-- The event-handling step of threadLoop (lines 146-160), at wall-clock
time now.  Returns the new state and whether the event's runnable was
invoked (line 162-166: the runnable runs only for accepted events and only
when attached). -/
def processEvent (s : SimState) (now : Int) (e : SimEvent) : SimState × Bool :=
  if s.running = false ∧ (e.type = SimEventType.Start ∨ e.type = SimEventType.Resume) then
    ({ s with
        running := true,
        lastRunningTime := now,
        lastRunningEvent := (e.clientId, e.sessionId),
        remainingUs :=
          if e.type = SimEventType.Start then 1000 * s.processingTimeMs
          else s.remainingUs },
     e.hasRunnable)
  else if s.running = true ∧ (e.type = SimEventType.Pause ∨ e.type = SimEventType.Stop) then
    ({ s with
        running := false,
        remainingUs := s.remainingUs - (now - s.lastRunningTime) },
     e.hasRunnable)
  else
    (s, false)

/-- The loop state paired with the accumulated wall-clock running time (in
microseconds) of the current session; every accUs increment is a
wall-clock interval during which running was true. -/
structure SimGhost where
  sim : SimState
  accUs : Int
deriving DecidableEq, Repr

/-- A timed occurrence in the loop: an event handled at a given time, or a
non-timeout wakeup of the waiting loop (lines 128-135), which advances
lastRunningTime and shrinks remainingUs by the elapsed stretch. -/
inductive SimTimedOp where
  | ev (now : Int) (e : SimEvent)
  | wake (now : Int)
deriving Repr

/-- One timed step of the loop, also accounting the elapsed running time:
a closed running stretch (pause/stop accepted, or a wakeup while running)
contributes its wall-clock length to accUs. -/
def simGhostStep (g : SimGhost) : SimTimedOp → SimGhost
  | SimTimedOp.ev now e =>
      let r := processEvent g.sim now e
      if g.sim.running = true ∧ (e.type = SimEventType.Pause ∨ e.type = SimEventType.Stop) then
        { sim := r.1, accUs := g.accUs + (now - g.sim.lastRunningTime) }
      else
        { sim := r.1, accUs := g.accUs }
  | SimTimedOp.wake now =>
      if g.sim.running = true then
        { sim :=
            { g.sim with
              remainingUs := g.sim.remainingUs - (now - g.sim.lastRunningTime),
              lastRunningTime := now },
          accUs := g.accUs + (now - g.sim.lastRunningTime) }
      else g

/-- The loop state just after a Start event for session (cid, sid) was
accepted at time t0 with member processing time tMs: running, full life
of 1000 * tMs microseconds remaining, no running time accumulated yet. -/
def startedGhost (t0 tMs cid sid : Int) : SimGhost :=
  { sim :=
      { running := true, remainingUs := 1000 * tMs, lastRunningTime := t0,
        lastRunningEvent := (cid, sid), processingTimeMs := tMs },
    accUs := 0 }

/-- Timed occurrences that belong to one session run: wakeups, pause
events and resume events (no further Start, no Stop). -/
def pauseResumeOnly : SimTimedOp → Prop
  | SimTimedOp.wake _ => True
  | SimTimedOp.ev _ e =>
      e.type = SimEventType.Pause ∨ e.type = SimEventType.Resume

instance (op : SimTimedOp) : Decidable (pauseResumeOnly op) := by
  cases op with
  | wake now => exact isTrue trivial
  | ev now e =>
      unfold pauseResumeOnly
      infer_instance

end SimulatedTranscoderModel

namespace TranscodingModel

theorem findSession_eq_none_iff (m : List (SessionKeyType × Session)) (k : SessionKeyType) :
    findSession m k = none ↔ k ∉ m.map Prod.fst := by
  induction m with
  | nil => simp [findSession]
  | cons e rest ih =>
      by_cases h : e.1 = k
      · simp [findSession, h]
      · simp [findSession, h, ih, Ne.symm h]

theorem findSession_mem {m : List (SessionKeyType × Session)} {k : SessionKeyType}
    {s : Session} (h : findSession m k = some s) : (k, s) ∈ m := by
  induction m with
  | nil => simp [findSession] at h
  | cons e rest ih =>
      by_cases he : e.1 = k
      · simp only [findSession, if_pos he, Option.some.injEq] at h
        have : e = (k, s) := by
          cases e
          simp_all
        exact this ▸ List.mem_cons_self _ _
      · simp only [findSession, if_neg he] at h
        exact List.mem_cons_of_mem _ (ih h)

theorem findSession_of_mem {m : List (SessionKeyType × Session)} {k : SessionKeyType}
    {s : Session} (hnd : (m.map Prod.fst).Nodup) (h : (k, s) ∈ m) :
    findSession m k = some s := by
  induction m with
  | nil => simp at h
  | cons e rest ih =>
      simp only [List.map_cons, List.nodup_cons] at hnd
      rcases List.mem_cons.mp h with h1 | h1
      · rw [← h1]
        simp [findSession]
      · have hk : e.1 ≠ k := by
          intro he
          exact hnd.1 (he ▸ (List.mem_map.mpr ⟨(k, s), h1, rfl⟩))
        simp only [findSession, if_neg hk]
        exact ih hnd.2 h1

theorem findSession_append_left {m1 : List (SessionKeyType × Session)}
    (m2 : List (SessionKeyType × Session)) {k : SessionKeyType} {s : Session}
    (h : findSession m1 k = some s) : findSession (m1 ++ m2) k = some s := by
  induction m1 with
  | nil => simp [findSession] at h
  | cons e rest ih =>
      by_cases he : e.1 = k
      · simp only [findSession, if_pos he] at h
        simp [findSession, he, h]
      · simp only [findSession, if_neg he] at h
        simp only [List.cons_append, findSession, if_neg he]
        exact ih h

theorem findSession_append_right {m1 : List (SessionKeyType × Session)}
    (m2 : List (SessionKeyType × Session)) {k : SessionKeyType}
    (h : findSession m1 k = none) : findSession (m1 ++ m2) k = findSession m2 k := by
  induction m1 with
  | nil => simp
  | cons e rest ih =>
      by_cases he : e.1 = k
      · simp [findSession, he] at h
      · simp only [findSession, if_neg he] at h
        simp only [List.cons_append, findSession, if_neg he]
        exact ih h

theorem eraseSession_sublist (m : List (SessionKeyType × Session)) (k : SessionKeyType) :
    List.Sublist (eraseSession m k) m := by
  induction m with
  | nil => simp [eraseSession]
  | cons e rest ih =>
      by_cases he : e.1 = k
      · simp only [eraseSession, if_pos he]
        exact List.sublist_cons_self _ _
      · simp only [eraseSession, if_neg he]
        exact List.Sublist.cons₂ _ ih

theorem eraseSession_of_not_mem {m : List (SessionKeyType × Session)} {k : SessionKeyType}
    (h : k ∉ m.map Prod.fst) : eraseSession m k = m := by
  induction m with
  | nil => rfl
  | cons e rest ih =>
      simp only [List.map_cons, List.mem_cons] at h
      push_neg at h
      have hne : e.1 ≠ k := fun he => h.1 he.symm
      simp only [eraseSession, if_neg hne]
      rw [ih h.2]

theorem findSession_eraseSession_ne (m : List (SessionKeyType × Session))
    {k k2 : SessionKeyType} (h : k2 ≠ k) :
    findSession (eraseSession m k) k2 = findSession m k2 := by
  induction m with
  | nil => rfl
  | cons e rest ih =>
      by_cases he : e.1 = k
      · have h2 : e.1 ≠ k2 := by rw [he]; exact fun hh => h hh.symm
        simp only [eraseSession, if_pos he, findSession, if_neg h2]
      · by_cases he2 : e.1 = k2
        · simp only [eraseSession, if_neg he, findSession, if_pos he2]
        · simp only [eraseSession, if_neg he, findSession, if_neg he2]
          exact ih

theorem findSession_eraseSession_self {m : List (SessionKeyType × Session)}
    {k : SessionKeyType} (hnd : (m.map Prod.fst).Nodup) :
    findSession (eraseSession m k) k = none := by
  induction m with
  | nil => rfl
  | cons e rest ih =>
      simp only [List.map_cons, List.nodup_cons] at hnd
      by_cases he : e.1 = k
      · simp only [eraseSession, if_pos he]
        rw [findSession_eq_none_iff]
        rw [he] at hnd
        exact hnd.1
      · simp only [eraseSession, if_neg he, findSession, if_neg he]
        exact ih hnd.2

theorem keys_eraseSession_sublist (m : List (SessionKeyType × Session)) (k : SessionKeyType) :
    List.Sublist ((eraseSession m k).map Prod.fst) (m.map Prod.fst) :=
  List.Sublist.map _ (eraseSession_sublist m k)

theorem mem_keys_eraseSession_of_ne {m : List (SessionKeyType × Session)}
    {k k2 : SessionKeyType} (h2 : k2 ∈ m.map Prod.fst) (hne : k2 ≠ k) :
    k2 ∈ (eraseSession m k).map Prod.fst := by
  by_contra hcon
  have hnone := (findSession_eq_none_iff (eraseSession m k) k2).mpr hcon
  rw [findSession_eraseSession_ne m hne] at hnone
  exact ((findSession_eq_none_iff m k2).mp hnone) h2

theorem eraseSession_append_singleton {m : List (SessionKeyType × Session)}
    {k : SessionKeyType} (s : Session) (h : findSession m k = none) :
    eraseSession (m ++ [(k, s)]) k = m := by
  rw [findSession_eq_none_iff] at h
  induction m with
  | nil => simp [eraseSession]
  | cons e rest ih =>
      simp only [List.map_cons, List.mem_cons] at h
      push_neg at h
      have hne : e.1 ≠ k := fun he => h.1 he.symm
      simp only [List.cons_append, eraseSession, if_neg hne]
      exact congrArg (fun l => e :: l) (ih h.2)

theorem keys_updateSessionF (m : List (SessionKeyType × Session)) (k : SessionKeyType)
    (f : Session → Session) : (updateSessionF m k f).map Prod.fst = m.map Prod.fst := by
  induction m with
  | nil => rfl
  | cons e rest ih =>
      by_cases he : e.1 = k
      · simp [updateSessionF, he]
      · simp [updateSessionF, he, ih]

theorem findSession_updateSessionF_self (m : List (SessionKeyType × Session))
    (k : SessionKeyType) (f : Session → Session) :
    findSession (updateSessionF m k f) k = (findSession m k).map f := by
  induction m with
  | nil => rfl
  | cons e rest ih =>
      by_cases he : e.1 = k
      · simp [updateSessionF, he, findSession]
      · simp only [updateSessionF, if_neg he, findSession, if_neg he]
        exact ih

theorem findSession_updateSessionF_ne (m : List (SessionKeyType × Session))
    {k k2 : SessionKeyType} (f : Session → Session) (h : k2 ≠ k) :
    findSession (updateSessionF m k f) k2 = findSession m k2 := by
  induction m with
  | nil => rfl
  | cons e rest ih =>
      by_cases he : e.1 = k
      · have h2 : e.1 ≠ k2 := by rw [he]; exact fun hh => h hh.symm
        simp only [updateSessionF, if_pos he, findSession, if_neg h2]
      · by_cases he2 : e.1 = k2
        · simp only [updateSessionF, if_neg he, findSession, if_pos he2]
        · simp only [updateSessionF, if_neg he, findSession, if_neg he2]
          exact ih

theorem mem_updateSessionF {m : List (SessionKeyType × Session)} {k : SessionKeyType}
    {f : Session → Session} {e : SessionKeyType × Session}
    (h : e ∈ updateSessionF m k f) :
    e ∈ m ∨ ∃ s0, (k, s0) ∈ m ∧ e = (k, f s0) := by
  induction m with
  | nil => simp [updateSessionF] at h
  | cons e0 rest ih =>
      by_cases he : e0.1 = k
      · simp only [updateSessionF, if_pos he] at h
        rcases List.mem_cons.mp h with h1 | h1
        · right
          refine ⟨e0.2, ?_, ?_⟩
          · rw [← he]
            exact List.mem_cons_self _ _
          · rw [h1, he]
        · exact Or.inl (List.mem_cons_of_mem _ h1)
      · simp only [updateSessionF, if_neg he] at h
        rcases List.mem_cons.mp h with h1 | h1
        · exact Or.inl (h1 ▸ List.mem_cons_self _ _)
        · rcases ih h1 with h2 | ⟨s0, hs0, he2⟩
          · exact Or.inl (List.mem_cons_of_mem _ h2)
          · exact Or.inr ⟨s0, List.mem_cons_of_mem _ hs0, he2⟩

end TranscodingModel

namespace TranscodingModel

theorem getQueue_eq_none_iff (qs : List (Int × List SessionKeyType)) (u : Int) :
    getQueue qs u = none ↔ u ∉ qs.map Prod.fst := by
  induction qs with
  | nil => simp [getQueue]
  | cons e rest ih =>
      by_cases h : e.1 = u
      · simp [getQueue, h]
      · simp [getQueue, h, ih, Ne.symm h]

theorem getQueue_mem {qs : List (Int × List SessionKeyType)} {u : Int}
    {q : List SessionKeyType} (h : getQueue qs u = some q) : (u, q) ∈ qs := by
  induction qs with
  | nil => simp [getQueue] at h
  | cons e rest ih =>
      by_cases he : e.1 = u
      · simp only [getQueue, if_pos he, Option.some.injEq] at h
        have : e = (u, q) := by
          cases e
          simp_all
        exact this ▸ List.mem_cons_self _ _
      · simp only [getQueue, if_neg he] at h
        exact List.mem_cons_of_mem _ (ih h)

theorem getQueue_of_mem {qs : List (Int × List SessionKeyType)} {u : Int}
    {q : List SessionKeyType} (hnd : (qs.map Prod.fst).Nodup) (h : (u, q) ∈ qs) :
    getQueue qs u = some q := by
  induction qs with
  | nil => simp at h
  | cons e rest ih =>
      simp only [List.map_cons, List.nodup_cons] at hnd
      rcases List.mem_cons.mp h with h1 | h1
      · rw [← h1]
        simp [getQueue]
      · have hk : e.1 ≠ u := by
          intro he
          exact hnd.1 (he ▸ (List.mem_map.mpr ⟨(u, q), h1, rfl⟩))
        simp only [getQueue, if_neg hk]
        exact ih hnd.2 h1

theorem getQueue_enqueueQueues_self (qs : List (Int × List SessionKeyType)) (u : Int)
    (k : SessionKeyType) :
    getQueue (enqueueQueues qs u k) u = some ((getQueue qs u).getD [] ++ [k]) := by
  induction qs with
  | nil => simp [enqueueQueues, getQueue]
  | cons e rest ih =>
      by_cases he : e.1 = u
      · simp [enqueueQueues, he, getQueue]
      · simp only [enqueueQueues, if_neg he, getQueue, if_neg he]
        exact ih

theorem getQueue_enqueueQueues_ne (qs : List (Int × List SessionKeyType)) {u u2 : Int}
    (k : SessionKeyType) (h : u2 ≠ u) :
    getQueue (enqueueQueues qs u k) u2 = getQueue qs u2 := by
  induction qs with
  | nil =>
      have hne : u ≠ u2 := fun hh => h hh.symm
      simp [enqueueQueues, getQueue, hne]
  | cons e rest ih =>
      by_cases he : e.1 = u
      · have h2 : e.1 ≠ u2 := by rw [he]; exact fun hh => h hh.symm
        simp only [enqueueQueues, if_pos he, getQueue, if_neg h2]
      · by_cases he2 : e.1 = u2
        · simp only [enqueueQueues, if_neg he, getQueue, if_pos he2]
        · simp only [enqueueQueues, if_neg he, getQueue, if_neg he2]
          exact ih

theorem keys_enqueueQueues_mem (qs : List (Int × List SessionKeyType)) (u : Int)
    (k : SessionKeyType) (h : u ∈ qs.map Prod.fst) :
    (enqueueQueues qs u k).map Prod.fst = qs.map Prod.fst := by
  induction qs with
  | nil => simp at h
  | cons e rest ih =>
      by_cases he : e.1 = u
      · simp [enqueueQueues, he]
      · simp only [List.map_cons, List.mem_cons] at h
        rcases h with h1 | h1
        · exact absurd h1.symm he
        · simp [enqueueQueues, he, ih h1]

theorem keys_enqueueQueues_not_mem (qs : List (Int × List SessionKeyType)) (u : Int)
    (k : SessionKeyType) (h : u ∉ qs.map Prod.fst) :
    (enqueueQueues qs u k).map Prod.fst = qs.map Prod.fst ++ [u] := by
  induction qs with
  | nil => simp [enqueueQueues]
  | cons e rest ih =>
      simp only [List.map_cons, List.mem_cons] at h
      push_neg at h
      have hne : e.1 ≠ u := fun he => h.1 he.symm
      simp [enqueueQueues, hne, ih h.2]

theorem mem_enqueueQueues {qs : List (Int × List SessionKeyType)} {u : Int}
    {k : SessionKeyType} {e : Int × List SessionKeyType}
    (h : e ∈ enqueueQueues qs u k) :
    e ∈ qs ∨ (∃ q0, getQueue qs u = some q0 ∧ e = (u, q0 ++ [k])) ∨
      (getQueue qs u = none ∧ e = (u, [k])) := by
  induction qs with
  | nil =>
      simp only [enqueueQueues, List.mem_singleton] at h
      exact Or.inr (Or.inr ⟨rfl, h⟩)
  | cons e0 rest ih =>
      by_cases he : e0.1 = u
      · simp only [enqueueQueues, if_pos he] at h
        rcases List.mem_cons.mp h with h1 | h1
        · right; left
          exact ⟨e0.2, by simp [getQueue, he], by rw [h1, he]⟩
        · exact Or.inl (List.mem_cons_of_mem _ h1)
      · simp only [enqueueQueues, if_neg he] at h
        rcases List.mem_cons.mp h with h1 | h1
        · exact Or.inl (h1 ▸ List.mem_cons_self _ _)
        · rcases ih h1 with h2 | h2 | h2
          · exact Or.inl (List.mem_cons_of_mem _ h2)
          · right; left
            rcases h2 with ⟨q0, hq0, he2⟩
            exact ⟨q0, by simp [getQueue, he, hq0], he2⟩
          · right; right
            exact ⟨by simp [getQueue, he, h2.1], h2.2⟩

theorem countKey_append (l1 l2 : List SessionKeyType) (k : SessionKeyType) :
    countKey (l1 ++ l2) k = countKey l1 k + countKey l2 k := by
  induction l1 with
  | nil => simp [countKey]
  | cons x rest ih => simp [countKey, ih]; omega

theorem countKey_eq_zero_iff (l : List SessionKeyType) (k : SessionKeyType) :
    countKey l k = 0 ↔ k ∉ l := by
  induction l with
  | nil => simp [countKey]
  | cons x rest ih =>
      by_cases h : x = k
      · simp [countKey, h]
      · simp [countKey, h, ih, Ne.symm h]

theorem countKey_pos_of_mem {l : List SessionKeyType} {k : SessionKeyType}
    (h : k ∈ l) : 0 < countKey l k := by
  by_contra hcon
  push_neg at hcon
  exact (countKey_eq_zero_iff l k).mp (Nat.le_zero.mp hcon) h

theorem mem_of_countKey_pos {l : List SessionKeyType} {k : SessionKeyType}
    (h : 0 < countKey l k) : k ∈ l := by
  by_contra hcon
  rw [(countKey_eq_zero_iff l k).mpr hcon] at h
  exact Nat.lt_irrefl 0 h

theorem joinQueues_enqueueQueues (qs : List (Int × List SessionKeyType)) (u : Int)
    (k k2 : SessionKeyType) :
    countKey (joinQueues (enqueueQueues qs u k)) k2 =
      countKey (joinQueues qs) k2 + (if k = k2 then 1 else 0) := by
  induction qs with
  | nil => simp [enqueueQueues, joinQueues, countKey]
  | cons e rest ih =>
      by_cases he : e.1 = u
      · simp only [enqueueQueues, if_pos he, joinQueues, countKey_append]
        simp [countKey]
        omega
      · simp only [enqueueQueues, if_neg he, joinQueues, countKey_append, ih]
        omega

theorem mem_joinQueues (qs : List (Int × List SessionKeyType)) (x : SessionKeyType) :
    x ∈ joinQueues qs ↔ ∃ e ∈ qs, x ∈ e.2 := by
  induction qs with
  | nil => simp [joinQueues]
  | cons e rest ih =>
      simp only [joinQueues, List.mem_append, ih, List.mem_cons]
      constructor
      · rintro (h | ⟨e2, he2, hx⟩)
        · exact ⟨e, Or.inl rfl, h⟩
        · exact ⟨e2, Or.inr he2, hx⟩
      · rintro ⟨e2, (rfl | he2), hx⟩
        · exact Or.inl hx
        · exact Or.inr ⟨e2, he2, hx⟩

theorem countKey_eraseOne_self {l : List SessionKeyType} {k : SessionKeyType}
    (h : k ∈ l) : countKey (eraseOne l k) k = countKey l k - 1 := by
  induction l with
  | nil => simp at h
  | cons x rest ih =>
      by_cases hx : x = k
      · simp [eraseOne, hx, countKey]
      · simp only [eraseOne, if_neg hx, countKey, if_neg hx]
        rcases List.mem_cons.mp h with h1 | h1
        · exact absurd h1.symm hx
        · have := countKey_pos_of_mem h1
          rw [ih h1]
          omega

theorem countKey_eraseOne_ne (l : List SessionKeyType) {k k2 : SessionKeyType}
    (h : k2 ≠ k) : countKey (eraseOne l k) k2 = countKey l k2 := by
  induction l with
  | nil => rfl
  | cons x rest ih =>
      by_cases hx : x = k
      · have hxk : x ≠ k2 := by rw [hx]; exact fun hh => h hh.symm
        have hkk : ¬(k = k2) := fun hh => h hh.symm
        simp [eraseOne, hx, countKey, hxk, hkk]
      · simp only [eraseOne, if_neg hx, countKey, ih]

theorem mem_eraseOne {l : List SessionKeyType} {k x : SessionKeyType}
    (h : x ∈ eraseOne l k) : x ∈ l := by
  induction l with
  | nil => simp [eraseOne] at h
  | cons y rest ih =>
      by_cases hy : y = k
      · simp only [eraseOne, if_pos hy] at h
        exact List.mem_cons_of_mem _ h
      · simp only [eraseOne, if_neg hy] at h
        rcases List.mem_cons.mp h with h1 | h1
        · exact h1 ▸ List.mem_cons_self _ _
        · exact List.mem_cons_of_mem _ (ih h1)

theorem eraseOne_of_not_mem {l : List SessionKeyType} {k : SessionKeyType}
    (h : k ∉ l) : eraseOne l k = l := by
  induction l with
  | nil => rfl
  | cons x rest ih =>
      simp only [List.mem_cons] at h
      push_neg at h
      have hne : x ≠ k := fun hx => h.1 hx.symm
      simp only [eraseOne, if_neg hne]
      rw [ih h.2]

theorem head_eraseOne {l : List SessionKeyType} {k h0 : SessionKeyType}
    (h : l.head? = some h0) (hne : h0 ≠ k) : (eraseOne l k).head? = some h0 := by
  cases l with
  | nil => simp at h
  | cons x rest =>
      simp only [List.head?_cons, Option.some.injEq] at h
      subst h
      simp [eraseOne, hne]

theorem eraseOne_append_singleton {l : List SessionKeyType} {k : SessionKeyType}
    (h : k ∉ l) : eraseOne (l ++ [k]) k = l := by
  induction l with
  | nil => simp [eraseOne]
  | cons x rest ih =>
      simp only [List.mem_cons] at h
      push_neg at h
      have hne : x ≠ k := fun hx => h.1 hx.symm
      simp only [List.cons_append, eraseOne, if_neg hne]
      exact congrArg (fun l2 => x :: l2) (ih h.2)

theorem keys_removeFromQueues_sublist (qs : List (Int × List SessionKeyType)) (u : Int)
    (k : SessionKeyType) :
    List.Sublist ((removeFromQueues qs u k).map Prod.fst) (qs.map Prod.fst) := by
  induction qs with
  | nil => simp [removeFromQueues]
  | cons e rest ih =>
      by_cases he : e.1 = u
      · simp only [removeFromQueues, if_pos he]
        by_cases hq : eraseOne e.2 k = []
        · rw [if_pos hq, List.map_cons]
          exact List.sublist_cons_self _ _
        · rw [if_neg hq, List.map_cons, List.map_cons]
      · simp only [removeFromQueues, if_neg he, List.map_cons]
        exact List.Sublist.cons₂ _ ih

theorem removeFromQueues_of_none {qs : List (Int × List SessionKeyType)} {u : Int}
    (k : SessionKeyType) (h : getQueue qs u = none) : removeFromQueues qs u k = qs := by
  induction qs with
  | nil => rfl
  | cons e rest ih =>
      by_cases he : e.1 = u
      · simp [getQueue, he] at h
      · simp only [getQueue, if_neg he] at h
        simp only [removeFromQueues, if_neg he]
        rw [ih h]

theorem getQueue_removeFromQueues_ne (qs : List (Int × List SessionKeyType)) {u u2 : Int}
    (k : SessionKeyType) (h : u2 ≠ u) :
    getQueue (removeFromQueues qs u k) u2 = getQueue qs u2 := by
  induction qs with
  | nil => rfl
  | cons e rest ih =>
      by_cases he : e.1 = u
      · have h2 : e.1 ≠ u2 := by rw [he]; exact fun hh => h hh.symm
        by_cases hq : eraseOne e.2 k = []
        · simp only [removeFromQueues, if_pos he, if_pos hq, getQueue, if_neg h2]
        · simp only [removeFromQueues, if_pos he, if_neg hq, getQueue, if_neg h2]
      · by_cases he2 : e.1 = u2
        · simp only [removeFromQueues, if_neg he, getQueue, if_pos he2]
        · simp only [removeFromQueues, if_neg he, getQueue, if_neg he2]
          exact ih

theorem getQueue_removeFromQueues_self_none {qs : List (Int × List SessionKeyType)}
    {u : Int} (k : SessionKeyType) (h : getQueue qs u = none) :
    getQueue (removeFromQueues qs u k) u = none := by
  rw [removeFromQueues_of_none k h]
  exact h

theorem getQueue_removeFromQueues_self_some {qs : List (Int × List SessionKeyType)}
    {u : Int} {q : List SessionKeyType} (k : SessionKeyType)
    (hnd : (qs.map Prod.fst).Nodup) (h : getQueue qs u = some q) :
    getQueue (removeFromQueues qs u k) u =
      if eraseOne q k = [] then none else some (eraseOne q k) := by
  induction qs with
  | nil => simp [getQueue] at h
  | cons e rest ih =>
      simp only [List.map_cons, List.nodup_cons] at hnd
      by_cases he : e.1 = u
      · have he2 : e.2 = q := by
          simp only [getQueue, if_pos he, Option.some.injEq] at h
          exact h
        subst he2
        simp only [removeFromQueues, if_pos he]
        by_cases hq : eraseOne e.2 k = []
        · rw [if_pos hq, if_pos hq]
          exact (getQueue_eq_none_iff rest u).mpr (he ▸ hnd.1)
        · rw [if_neg hq, if_neg hq]
          simp [getQueue, he]
      · simp only [getQueue, if_neg he] at h
        simp only [removeFromQueues, if_neg he, getQueue, if_neg he]
        exact ih hnd.2 h

theorem mem_removeFromQueues {qs : List (Int × List SessionKeyType)} {u : Int}
    {k : SessionKeyType} {e : Int × List SessionKeyType}
    (h : e ∈ removeFromQueues qs u k) :
    e ∈ qs ∨ ∃ q0, getQueue qs u = some q0 ∧ e = (u, eraseOne q0 k) ∧
      eraseOne q0 k ≠ [] := by
  induction qs with
  | nil => simp [removeFromQueues] at h
  | cons e0 rest ih =>
      by_cases he : e0.1 = u
      · simp only [removeFromQueues, if_pos he] at h
        by_cases hq : eraseOne e0.2 k = []
        · rw [if_pos hq] at h
          exact Or.inl (List.mem_cons_of_mem _ h)
        · rw [if_neg hq] at h
          rcases List.mem_cons.mp h with h1 | h1
          · right
            exact ⟨e0.2, by simp [getQueue, he], by rw [h1, he], hq⟩
          · exact Or.inl (List.mem_cons_of_mem _ h1)
      · simp only [removeFromQueues, if_neg he] at h
        rcases List.mem_cons.mp h with h1 | h1
        · exact Or.inl (h1 ▸ List.mem_cons_self _ _)
        · rcases ih h1 with h2 | ⟨q0, hq0, he2, hne2⟩
          · exact Or.inl (List.mem_cons_of_mem _ h2)
          · right
            exact ⟨q0, by simp [getQueue, he, hq0], he2, hne2⟩

theorem joinQueues_removeFromQueues_self {qs : List (Int × List SessionKeyType)} {u : Int}
    {k : SessionKeyType} {q0 : List SessionKeyType}
    (hq : getQueue qs u = some q0) (hk : k ∈ q0) :
    countKey (joinQueues (removeFromQueues qs u k)) k =
      countKey (joinQueues qs) k - 1 := by
  induction qs with
  | nil => simp [getQueue] at hq
  | cons e rest ih =>
      by_cases he : e.1 = u
      · simp only [getQueue, if_pos he, Option.some.injEq] at hq
        subst hq
        by_cases hq2 : eraseOne e.2 k = []
        · simp only [removeFromQueues, if_pos he, if_pos hq2, joinQueues, countKey_append]
          have h1 : countKey (eraseOne e.2 k) k = countKey e.2 k - 1 :=
            countKey_eraseOne_self hk
          rw [hq2] at h1
          simp only [countKey] at h1
          have := countKey_pos_of_mem hk
          omega
        · simp only [removeFromQueues, if_pos he, if_neg hq2, joinQueues, countKey_append]
          have h1 : countKey (eraseOne e.2 k) k = countKey e.2 k - 1 :=
            countKey_eraseOne_self hk
          have := countKey_pos_of_mem hk
          omega
      · simp only [getQueue, if_neg he] at hq
        simp only [removeFromQueues, if_neg he, joinQueues, countKey_append, ih hq]
        have : 0 < countKey (joinQueues rest) k := by
          apply countKey_pos_of_mem
          rw [mem_joinQueues]
          exact ⟨(u, q0), getQueue_mem hq, hk⟩
        omega

theorem joinQueues_removeFromQueues_ne (qs : List (Int × List SessionKeyType)) (u : Int)
    {k k2 : SessionKeyType} (h : k2 ≠ k) :
    countKey (joinQueues (removeFromQueues qs u k)) k2 =
      countKey (joinQueues qs) k2 := by
  induction qs with
  | nil => rfl
  | cons e rest ih =>
      by_cases he : e.1 = u
      · by_cases hq : eraseOne e.2 k = []
        · simp only [removeFromQueues, if_pos he, if_pos hq, joinQueues, countKey_append]
          have h1 := countKey_eraseOne_ne e.2 h
          rw [hq] at h1
          simp only [countKey] at h1
          omega
        · simp only [removeFromQueues, if_pos he, if_neg hq, joinQueues, countKey_append]
          rw [countKey_eraseOne_ne e.2 h]
      · simp only [removeFromQueues, if_neg he, joinQueues, countKey_append, ih]

theorem mem_eraseUid {l : List Int} {u x : Int} (h : x ∈ eraseUid l u) : x ∈ l := by
  induction l with
  | nil => simp [eraseUid] at h
  | cons y rest ih =>
      by_cases hy : y = u
      · simp only [eraseUid, if_pos hy] at h
        exact List.mem_cons_of_mem _ h
      · simp only [eraseUid, if_neg hy] at h
        rcases List.mem_cons.mp h with h1 | h1
        · exact h1 ▸ List.mem_cons_self _ _
        · exact List.mem_cons_of_mem _ (ih h1)

theorem mem_eraseUid_of_ne {l : List Int} {u x : Int} (hne : x ≠ u) :
    x ∈ eraseUid l u ↔ x ∈ l := by
  induction l with
  | nil => simp [eraseUid]
  | cons y rest ih =>
      by_cases hy : y = u
      · have hxy : x ≠ y := by rw [hy]; exact hne
        simp only [eraseUid, if_pos hy, List.mem_cons]
        constructor
        · exact Or.inr
        · rintro (h1 | h1)
          · exact absurd h1 hxy
          · exact h1
      · simp [eraseUid, hy, ih]

theorem eraseUid_sublist (l : List Int) (u : Int) : List.Sublist (eraseUid l u) l := by
  induction l with
  | nil => simp [eraseUid]
  | cons y rest ih =>
      by_cases hy : y = u
      · simp only [eraseUid, if_pos hy]
        exact List.sublist_cons_self _ _
      · simp only [eraseUid, if_neg hy]
        exact List.Sublist.cons₂ _ ih

theorem not_mem_eraseUid_self {l : List Int} {u : Int} (hnd : l.Nodup) :
    u ∉ eraseUid l u := by
  induction l with
  | nil => simp [eraseUid]
  | cons y rest ih =>
      simp only [List.nodup_cons] at hnd
      by_cases hy : y = u
      · simp only [eraseUid, if_pos hy]
        exact hy ▸ hnd.1
      · simp only [eraseUid, if_neg hy, List.mem_cons]
        push_neg
        exact ⟨fun hh => hy hh.symm, ih hnd.2⟩

theorem eraseUid_of_not_mem {l : List Int} {u : Int} (h : u ∉ l) : eraseUid l u = l := by
  induction l with
  | nil => rfl
  | cons y rest ih =>
      simp only [List.mem_cons] at h
      push_neg at h
      have hne : y ≠ u := fun hy => h.1 hy.symm
      simp only [eraseUid, if_neg hne]
      rw [ih h.2]

theorem nodup_eraseUid {l : List Int} (u : Int) (hnd : l.Nodup) :
    (eraseUid l u).Nodup :=
  List.Nodup.sublist (eraseUid_sublist l u) hnd

theorem mem_insertBeforeOffline (l : List Int) (u x : Int) :
    x ∈ insertBeforeOffline l u ↔ x = u ∨ x ∈ l := by
  induction l with
  | nil => simp [insertBeforeOffline]
  | cons y rest ih =>
      by_cases hy : y = offlineUid
      · simp only [insertBeforeOffline, if_pos hy, List.mem_cons]
      · simp only [insertBeforeOffline, if_neg hy, List.mem_cons, ih]
        tauto

theorem nodup_insertBeforeOffline {l : List Int} {u : Int} (h : u ∉ l) (hnd : l.Nodup) :
    (insertBeforeOffline l u).Nodup := by
  induction l with
  | nil => simp [insertBeforeOffline]
  | cons y rest ih =>
      simp only [List.mem_cons] at h
      push_neg at h
      simp only [List.nodup_cons] at hnd
      by_cases hy : y = offlineUid
      · simp only [insertBeforeOffline, if_pos hy, List.nodup_cons, List.mem_cons]
        push_neg
        exact ⟨⟨h.1, h.2⟩, hnd.1, hnd.2⟩
      · simp only [insertBeforeOffline, if_neg hy, List.nodup_cons]
        constructor
        · intro hcon
          rcases (mem_insertBeforeOffline rest u y).mp hcon with h1 | h1
          · exact h.1 h1.symm
          · exact hnd.1 h1
        · exact ih h.2 hnd.2

theorem eraseUid_insertBeforeOffline {l : List Int} {u : Int} (h : u ∉ l) :
    eraseUid (insertBeforeOffline l u) u = l := by
  induction l with
  | nil => simp [insertBeforeOffline, eraseUid]
  | cons y rest ih =>
      simp only [List.mem_cons] at h
      push_neg at h
      have hne : y ≠ u := fun hy => h.1 hy.symm
      by_cases hy : y = offlineUid
      · simp [insertBeforeOffline, hy, eraseUid, hne]
      · simp only [insertBeforeOffline, if_neg hy, eraseUid, if_neg hne]
        rw [ih h.2]

theorem firstQueueHead_spec {order : List Int} {qs : List (Int × List SessionKeyType)}
    {t : SessionKeyType} (h : firstQueueHead order qs = some t) :
    ∃ u q, u ∈ order ∧ getQueue qs u = some q ∧ q.head? = some t := by
  induction order with
  | nil => simp [firstQueueHead] at h
  | cons u rest ih =>
      simp only [firstQueueHead] at h
      rcases hq : getQueue qs u with _ | q
      · rw [hq] at h
        rcases ih h with ⟨u2, q2, hu2, hq2, ht2⟩
        exact ⟨u2, q2, List.mem_cons_of_mem _ hu2, hq2, ht2⟩
      · rcases q with _ | ⟨k0, q2⟩
        · rw [hq] at h
          rcases ih h with ⟨u2, q3, hu2, hq2, ht2⟩
          exact ⟨u2, q3, List.mem_cons_of_mem _ hu2, hq2, ht2⟩
        · rw [hq] at h
          simp only [Option.some.injEq] at h
          exact ⟨u, k0 :: q2, List.mem_cons_self _ _, hq, by simp [h]⟩

theorem mem_splitPromoted (l uids : List Int) (x : Int) :
    (x ∈ (splitPromoted l uids).1 ∨ x ∈ (splitPromoted l uids).2) ↔ x ∈ l := by
  induction l with
  | nil => simp [splitPromoted]
  | cons y rest ih =>
      by_cases hy : y ≠ offlineUid ∧ y ∈ uids
      · simp only [splitPromoted, if_pos hy, List.mem_cons]
        tauto
      · simp only [splitPromoted, if_neg hy, List.mem_cons]
        tauto

theorem nodup_splitPromoted {l : List Int} (uids : List Int) (hnd : l.Nodup) :
    ((splitPromoted l uids).1 ++ (splitPromoted l uids).2).Nodup := by
  induction l with
  | nil => simp [splitPromoted]
  | cons y rest ih =>
      simp only [List.nodup_cons] at hnd
      have hy2 : y ∉ (splitPromoted rest uids).1 ∧ y ∉ (splitPromoted rest uids).2 := by
        constructor
        · intro hcon
          exact hnd.1 ((mem_splitPromoted rest uids y).mp (Or.inl hcon))
        · intro hcon
          exact hnd.1 ((mem_splitPromoted rest uids y).mp (Or.inr hcon))
      by_cases hy : y ≠ offlineUid ∧ y ∈ uids
      · simp only [splitPromoted, if_pos hy, List.cons_append, List.nodup_cons]
        constructor
        · rw [List.mem_append]
          push_neg
          exact hy2
        · exact ih hnd.2
      · simp only [splitPromoted, if_neg hy]
        have P := ih hnd.2
        rw [List.nodup_append] at P
        rw [List.nodup_append]
        refine ⟨P.1, ?_, ?_⟩
        · rw [List.nodup_cons]
          exact ⟨hy2.2, P.2.1⟩
        · intro a ha hmem
          rcases List.mem_cons.mp hmem with h1 | h1
          · exact hy2.1 (h1 ▸ ha)
          · exact P.2.2 ha h1

theorem mem_moveUidsToTop (l uids : List Int) (pt : Bool) (x : Int) :
    x ∈ moveUidsToTop l uids pt ↔ x ∈ l := by
  have hbase : x ∈ (splitPromoted l uids).1 ++ (splitPromoted l uids).2 ↔ x ∈ l := by
    rw [List.mem_append]
    exact mem_splitPromoted l uids x
  unfold moveUidsToTop
  cases pt with
  | false =>
      rw [if_neg (by simp)]
      exact hbase
  | true =>
      rw [if_pos rfl]
      rcases l with _ | ⟨y, rest⟩
      · simp [splitPromoted]
      · simp only [List.head?_cons]
        constructor
        · intro hmem
          rcases List.mem_cons.mp hmem with h1 | h1
          · exact h1 ▸ List.mem_cons_self _ _
          · have h2 := mem_eraseUid h1
            exact hbase.mp h2
        · intro hmem
          by_cases hx : x = y
          · exact hx ▸ List.mem_cons_self _ _
          · apply List.mem_cons_of_mem
            rw [mem_eraseUid_of_ne hx]
            exact hbase.mpr hmem

theorem nodup_moveUidsToTop {l : List Int} (uids : List Int) (pt : Bool)
    (hnd : l.Nodup) : (moveUidsToTop l uids pt).Nodup := by
  unfold moveUidsToTop
  cases pt with
  | false =>
      rw [if_neg (by simp)]
      exact nodup_splitPromoted uids hnd
  | true =>
      rw [if_pos rfl]
      rcases l with _ | ⟨y, rest⟩
      · simp [splitPromoted]
      · simp only [List.head?_cons, List.nodup_cons]
        constructor
        · exact not_mem_eraseUid_self (nodup_splitPromoted uids hnd)
        · exact nodup_eraseUid y (nodup_splitPromoted uids hnd)

end TranscodingModel

namespace TranscodingModel

/-- The second map lists the same keys and preserves each entry's uid. -/
def KeysUidEq (m m2 : List (SessionKeyType × Session)) : Prop :=
  m2.map Prod.fst = m.map Prod.fst ∧
  ∀ e ∈ m2, ∃ s0, (e.1, s0) ∈ m ∧ e.2.uid = s0.uid

theorem keysUidEq_refl (m : List (SessionKeyType × Session)) : KeysUidEq m m :=
  ⟨rfl, fun e he => ⟨e.2, he, rfl⟩⟩

theorem keysUidEq_updateState (m : List (SessionKeyType × Session))
    (k : SessionKeyType) (st : SessionState) : KeysUidEq m (updateState m k st) := by
  refine ⟨keys_updateSessionF m k _, ?_⟩
  intro e he
  rcases mem_updateSessionF he with h1 | ⟨s0, hs0, he2⟩
  · exact ⟨e.2, h1, rfl⟩
  · exact ⟨s0, by rw [he2]; exact hs0, by rw [he2]⟩

theorem keysUidEq_trans {m m2 m3 : List (SessionKeyType × Session)}
    (h1 : KeysUidEq m m2) (h2 : KeysUidEq m2 m3) : KeysUidEq m m3 := by
  refine ⟨h2.1.trans h1.1, ?_⟩
  intro e he
  rcases h2.2 e he with ⟨s0, hs0, hu0⟩
  rcases h1.2 (e.1, s0) hs0 with ⟨s1, hs1, hu1⟩
  exact ⟨s1, hs1, hu0.trans hu1⟩

theorem keysUidEq_pausedMapSync (c : Controller) :
    KeysUidEq c.sessionMap (pausedMapSync c) := by
  unfold pausedMapSync
  repeat' split
  all_goals first
    | exact keysUidEq_updateState _ _ _
    | exact keysUidEq_refl _

theorem keysUidEq_startedMapSync (c : Controller) :
    KeysUidEq c.sessionMap (startedMapSync c) := by
  unfold startedMapSync
  repeat' split
  all_goals first
    | exact keysUidEq_trans (keysUidEq_pausedMapSync c) (keysUidEq_updateState _ _ _)
    | exact keysUidEq_pausedMapSync c

/-- QueueInvProp only depends on the registry keys and uids, the queues
and the uid ordering. -/
theorem queueInvProp_of {c c2 : Controller} (hq : QueueInvProp c)
    (hmap : KeysUidEq c.sessionMap c2.sessionMap)
    (hqs : c2.sessionQueues = c.sessionQueues)
    (horder : c2.uidSortedList = c.uidSortedList) : QueueInvProp c2 := by
  obtain ⟨q1, q2, q3, q4, q5, q6, q7, q8, q9, q10⟩ := hq
  refine ⟨?_, ?_, ?_, ?_, ?_, ?_, ?_, ?_, ?_, ?_⟩
  · rw [mapKeys, hmap.1]
    exact q1
  · rw [hqs]
    exact q2
  · rw [horder]
    exact q3
  · rw [horder]
    exact q4
  · rw [hqs]
    exact q5
  · rw [hqs, horder]
    exact q6
  · rw [horder]
    intro u hu hne
    rw [hqs]
    exact q7 u hu hne
  · intro k hk
    rw [mapKeys, hmap.1]
    apply q8
    rw [allQueueKeys, hqs] at hk
    exact hk
  · intro k hk
    rw [mapKeys, hmap.1] at hk
    rw [allQueueKeys, hqs]
    exact q9 k hk
  · intro e he qe hqe hmem
    rcases hmap.2 e he with ⟨s0, hs0, hu0⟩
    rw [hu0]
    rw [hqs] at hqe
    exact q10 (e.1, s0) hs0 qe hqe hmem

/-- RunInvProp only depends on the registry, the queues and the current
session. -/
theorem runInvProp_of {c c2 : Controller} (hr : RunInvProp c)
    (hmap : c2.sessionMap = c.sessionMap)
    (hqs : c2.sessionQueues = c.sessionQueues)
    (hcur : c2.currentSession = c.currentSession) : RunInvProp c2 := by
  constructor
  · intro e he hst
    rw [hmap] at he
    rw [hcur]
    exact hr.1 e he hst
  · intro e he hst
    rw [hmap] at he
    have := hr.2 e he hst
    rw [headOfUidQueue, hqs]
    rw [headOfUidQueue] at this
    exact this

theorem updateCurrentSession_fields (c : Controller) :
    (updateCurrentSession c).1.sessionMap = c.sessionMap ∧
    (updateCurrentSession c).1.sessionQueues = c.sessionQueues ∧
    (updateCurrentSession c).1.uidSortedList = c.uidSortedList ∧
    (updateCurrentSession c).1.resourceLost = c.resourceLost := by
  unfold updateCurrentSession
  repeat' split
  all_goals exact ⟨rfl, rfl, rfl, rfl⟩

theorem updateCurrentSessionSync_fields (c : Controller) :
    (updateCurrentSessionSync c).1.sessionQueues = c.sessionQueues ∧
    (updateCurrentSessionSync c).1.uidSortedList = c.uidSortedList ∧
    (updateCurrentSessionSync c).1.resourceLost = c.resourceLost := by
  unfold updateCurrentSessionSync
  repeat' split
  all_goals exact ⟨rfl, rfl, rfl⟩

theorem keysUidEq_updateCurrentSessionSync (c : Controller) :
    KeysUidEq c.sessionMap (updateCurrentSessionSync c).1.sessionMap := by
  unfold updateCurrentSessionSync
  repeat' split
  all_goals first
    | exact keysUidEq_refl _
    | exact keysUidEq_updateState _ _ _
    | exact keysUidEq_startedMapSync c

theorem queueInv_updateCurrentSession {c : Controller} (hq : QueueInvProp c) :
    QueueInvProp (updateCurrentSession c).1 := by
  obtain ⟨h1, h2, h3, _⟩ := updateCurrentSession_fields c
  exact queueInvProp_of hq (h1 ▸ keysUidEq_refl _) h2 h3

theorem queueInv_updateCurrentSessionSync {c : Controller} (hq : QueueInvProp c) :
    QueueInvProp (updateCurrentSessionSync c).1 := by
  obtain ⟨h2, h3, _⟩ := updateCurrentSessionSync_fields c
  exact queueInvProp_of hq (keysUidEq_updateCurrentSessionSync c) h2 h3

end TranscodingModel

namespace TranscodingModel

theorem queueInv_insertEnqueue {c : Controller} {k : SessionKeyType} {uid : Int}
    {req : Nat} (hq : QueueInvProp c) (hfind : findSession c.sessionMap k = none) :
    QueueInvProp (enqueueSession (insertSession c k uid req) uid k) := by
  obtain ⟨q1, q2, q3, q4, q5, q6, q7, q8, q9, q10⟩ := hq
  have hknotin : k ∉ mapKeys c := (findSession_eq_none_iff _ _).mp hfind
  have hknotq : k ∉ allQueueKeys c := fun hmem => hknotin (q8 k hmem)
  set c2 := enqueueSession (insertSession c k uid req) uid k with hc2
  have hm2 : c2.sessionMap = c.sessionMap ++ [(k, mkSession k uid req)] := rfl
  have hk2 : mapKeys c2 = mapKeys c ++ [k] := by
    rw [mapKeys, hm2, List.map_append]
    rfl
  have hqs2 : c2.sessionQueues = enqueueQueues c.sessionQueues uid k := rfl
  have ho2 : c2.uidSortedList =
      (if uid ∈ c.uidSortedList then c.uidSortedList
       else insertBeforeOffline c.uidSortedList uid) := rfl
  have hmemo2 : ∀ x, x ∈ c.uidSortedList → x ∈ c2.uidSortedList := by
    intro x hx
    rw [ho2]
    by_cases hu : uid ∈ c.uidSortedList
    · rw [if_pos hu]
      exact hx
    · rw [if_neg hu, mem_insertBeforeOffline]
      exact Or.inr hx
  refine ⟨?_, ?_, ?_, ?_, ?_, ?_, ?_, ?_, ?_, ?_⟩
  · rw [hk2, List.nodup_append]
    refine ⟨q1, List.nodup_singleton _, ?_⟩
    intro a ha hb
    rw [List.mem_singleton] at hb
    exact hknotin (hb ▸ ha)
  · rw [hqs2]
    by_cases hu : uid ∈ c.sessionQueues.map Prod.fst
    · rw [keys_enqueueQueues_mem _ _ _ hu]
      exact q2
    · rw [keys_enqueueQueues_not_mem _ _ _ hu, List.nodup_append]
      refine ⟨q2, List.nodup_singleton _, ?_⟩
      intro a ha hb
      rw [List.mem_singleton] at hb
      exact hu (hb ▸ ha)
  · rw [ho2]
    by_cases hu : uid ∈ c.uidSortedList
    · rw [if_pos hu]
      exact q3
    · rw [if_neg hu]
      exact nodup_insertBeforeOffline hu q3
  · exact hmemo2 _ q4
  · intro e he
    rw [hqs2] at he
    rcases mem_enqueueQueues he with h1 | ⟨q0, _, he2⟩ | ⟨_, he2⟩
    · exact q5 e h1
    · rw [he2]
      simp
    · rw [he2]
      simp
  · intro e he
    rw [hqs2] at he
    rcases mem_enqueueQueues he with h1 | ⟨q0, _, he2⟩ | ⟨_, he2⟩
    · exact hmemo2 _ (q6 e h1)
    · rw [he2]
      rw [ho2]
      by_cases hu : uid ∈ c.uidSortedList
      · rw [if_pos hu]
        exact hu
      · rw [if_neg hu, mem_insertBeforeOffline]
        exact Or.inl rfl
    · rw [he2]
      rw [ho2]
      by_cases hu : uid ∈ c.uidSortedList
      · rw [if_pos hu]
        exact hu
      · rw [if_neg hu, mem_insertBeforeOffline]
        exact Or.inl rfl
  · intro u2 hu2 hne
    rw [hqs2]
    by_cases huu : u2 = uid
    · subst huu
      rw [getQueue_enqueueQueues_self]
      simp
    · rw [getQueue_enqueueQueues_ne _ _ huu]
      apply q7 u2 _ hne
      rw [ho2] at hu2
      by_cases hu : uid ∈ c.uidSortedList
      · rw [if_pos hu] at hu2
        exact hu2
      · rw [if_neg hu, mem_insertBeforeOffline] at hu2
        rcases hu2 with h1 | h1
        · exact absurd h1 huu
        · exact h1
  · intro k2 hk2mem
    rw [hk2, List.mem_append, List.mem_singleton]
    rw [allQueueKeys, hqs2, mem_joinQueues] at hk2mem
    rcases hk2mem with ⟨e, he, hk2e⟩
    rcases mem_enqueueQueues he with h1 | ⟨q0, hq0, he2⟩ | ⟨_, he2⟩
    · left
      apply q8
      rw [allQueueKeys, mem_joinQueues]
      exact ⟨e, h1, hk2e⟩
    · rw [he2] at hk2e
      simp only [List.mem_append, List.mem_singleton] at hk2e
      rcases hk2e with h3 | h3
      · left
        apply q8
        rw [allQueueKeys, mem_joinQueues]
        exact ⟨(uid, q0), getQueue_mem hq0, h3⟩
      · exact Or.inr h3
    · rw [he2] at hk2e
      simp only [List.mem_singleton] at hk2e
      exact Or.inr hk2e
  · intro k2 hk2mem
    have hcount : countKey (allQueueKeys c2) k2 =
        countKey (allQueueKeys c) k2 + (if k = k2 then 1 else 0) := by
      rw [allQueueKeys, allQueueKeys, hqs2]
      exact joinQueues_enqueueQueues _ _ _ _
    rw [hk2, List.mem_append, List.mem_singleton] at hk2mem
    rcases hk2mem with h1 | h1
    · have hne : k ≠ k2 := fun he => hknotin (he ▸ h1)
      rw [hcount, if_neg hne, q9 k2 h1]
    · subst h1
      rw [hcount, if_pos rfl, (countKey_eq_zero_iff _ _).mpr hknotq]
  · intro e he qe hqe hmem
    rw [hm2, List.mem_append, List.mem_singleton] at he
    rw [hqs2] at hqe
    rcases he with he | he
    · have he1k : e.1 ≠ k := by
        intro hcon
        exact hknotin (hcon ▸ List.mem_map.mpr ⟨e, he, rfl⟩)
      rcases mem_enqueueQueues hqe with h1 | ⟨q0, hq0, he2⟩ | ⟨_, he2⟩
      · exact q10 e he qe h1 hmem
      · rw [he2] at hmem ⊢
        simp only [List.mem_append, List.mem_singleton] at hmem
        rcases hmem with h3 | h3
        · exact q10 e he (uid, q0) (getQueue_mem hq0) h3
        · exact absurd h3 he1k
      · rw [he2] at hmem ⊢
        simp only [List.mem_singleton] at hmem
        exact absurd hmem he1k
    · rw [he]
      rcases mem_enqueueQueues hqe with h1 | ⟨q0, hq0, he2⟩ | ⟨_, he2⟩
      · rw [he] at hmem
        exfalso
        apply hknotq
        rw [allQueueKeys, mem_joinQueues]
        exact ⟨qe, h1, hmem⟩
      · rw [he2]
        rfl
      · rw [he2]
        rfl

end TranscodingModel

namespace TranscodingModel

theorem removeSession_eq_of_some {c : Controller} {k : SessionKeyType} {sk : Session}
    (hfind : findSession c.sessionMap k = some sk) :
    removeSession c k =
      { c with
        sessionMap := eraseSession c.sessionMap k,
        sessionQueues := removeFromQueues c.sessionQueues sk.uid k,
        uidSortedList :=
          if sk.uid ≠ offlineUid ∧
              getQueue (removeFromQueues c.sessionQueues sk.uid k) sk.uid = none then
            eraseUid c.uidSortedList sk.uid
          else c.uidSortedList,
        currentSession :=
          if c.currentSession = some k then none else c.currentSession } := by
  unfold removeSession
  rw [hfind]

theorem removeSession_eq_of_none {c : Controller} {k : SessionKeyType}
    (hfind : findSession c.sessionMap k = none) : removeSession c k = c := by
  unfold removeSession
  rw [hfind]

theorem queueInv_removeSession {c : Controller} (k : SessionKeyType)
    (hq : QueueInvProp c) : QueueInvProp (removeSession c k) := by
  obtain ⟨q1, q2, q3, q4, q5, q6, q7, q8, q9, q10⟩ := hq
  rcases hfind : findSession c.sessionMap k with _ | sk
  · rw [removeSession_eq_of_none hfind]
    exact ⟨q1, q2, q3, q4, q5, q6, q7, q8, q9, q10⟩
  · have hkin : k ∈ mapKeys c := List.mem_map.mpr ⟨(k, sk), findSession_mem hfind, rfl⟩
    have hcount1 : countKey (allQueueKeys c) k = 1 := q9 k hkin
    have hkq : k ∈ allQueueKeys c := mem_of_countKey_pos (by omega)
    obtain ⟨qe0, hqe0, hkqe0⟩ := (mem_joinQueues _ _).mp hkq
    have huid0 : qe0.1 = sk.uid := q10 (k, sk) (findSession_mem hfind) qe0 hqe0 hkqe0
    have hq0 : getQueue c.sessionQueues sk.uid = some qe0.2 := by
      rw [← huid0]
      exact getQueue_of_mem q2 (by rcases qe0 with ⟨a, b⟩; exact hqe0)
    rw [removeSession_eq_of_some hfind]
    set qs2 := removeFromQueues c.sessionQueues sk.uid k with hqs2def
    have hqs2nd : (qs2.map Prod.fst).Nodup :=
      List.Nodup.sublist (keys_removeFromQueues_sublist _ _ _) q2
    have hcount1b : countKey (joinQueues c.sessionQueues) k = 1 := hcount1
    have hcnt_self : countKey (joinQueues qs2) k = 0 := by
      rw [hqs2def, joinQueues_removeFromQueues_self hq0 hkqe0, hcount1b]
    have hcnt_ne : ∀ k2, k2 ≠ k →
        countKey (joinQueues qs2) k2 = countKey (allQueueKeys c) k2 := by
      intro k2 hne
      rw [hqs2def]
      exact joinQueues_removeFromQueues_ne _ _ hne
    refine ⟨?_, ?_, ?_, ?_, ?_, ?_, ?_, ?_, ?_, ?_⟩
    · exact List.Nodup.sublist (keys_eraseSession_sublist _ _) q1
    · exact hqs2nd
    · by_cases hb : sk.uid ≠ offlineUid ∧ getQueue qs2 sk.uid = none
      · rw [if_pos hb]
        exact nodup_eraseUid _ q3
      · rw [if_neg hb]
        exact q3
    · by_cases hb : sk.uid ≠ offlineUid ∧ getQueue qs2 sk.uid = none
      · rw [if_pos hb]
        have : offlineUid ≠ sk.uid := fun hcon => hb.1 hcon.symm
        exact (mem_eraseUid_of_ne this).mpr q4
      · rw [if_neg hb]
        exact q4
    · intro e he
      rcases mem_removeFromQueues he with h1 | ⟨q0, _, he2, hne2⟩
      · exact q5 e h1
      · rw [he2]
        simpa using hne2
    · intro e he
      have hin : e.1 ∈ c.uidSortedList := by
        rcases mem_removeFromQueues he with h1 | ⟨q0, hq02, he2, _⟩
        · exact q6 e h1
        · rw [he2]
          exact q6 (sk.uid, q0) (getQueue_mem hq02)
      by_cases hb : sk.uid ≠ offlineUid ∧ getQueue qs2 sk.uid = none
      · rw [if_pos hb]
        have hne : e.1 ≠ sk.uid := by
          intro hcon
          have : getQueue qs2 e.1 = some e.2 :=
            getQueue_of_mem hqs2nd (by rcases e with ⟨a, b⟩; exact he)
          rw [hcon] at this
          rw [this] at hb
          exact Option.noConfusion hb.2
        exact (mem_eraseUid_of_ne hne).mpr hin
      · rw [if_neg hb]
        exact hin
    · intro u2 hu2 hne
      by_cases hb : sk.uid ≠ offlineUid ∧ getQueue qs2 sk.uid = none
      · rw [if_pos hb] at hu2
        have hu2ne : u2 ≠ sk.uid := by
          intro hcon
          rw [hcon] at hu2
          exact not_mem_eraseUid_self q3 hu2
        rw [hqs2def, getQueue_removeFromQueues_ne _ _ hu2ne]
        exact q7 u2 (mem_eraseUid hu2) hne
      · rw [if_neg hb] at hu2
        by_cases hu2e : u2 = sk.uid
        · subst hu2e
          push_neg at hb
          exact hb hne
        · rw [hqs2def, getQueue_removeFromQueues_ne _ _ hu2e]
          exact q7 u2 hu2 hne
    · intro k2 hk2
      have hk2ne : k2 ≠ k := by
        intro hcon
        subst hcon
        have := countKey_pos_of_mem hk2
        rw [allQueueKeys] at this
        rw [hcnt_self] at this
        exact Nat.lt_irrefl 0 this
      have : k2 ∈ allQueueKeys c := by
        apply mem_of_countKey_pos
        rw [← hcnt_ne k2 hk2ne]
        apply countKey_pos_of_mem
        rw [allQueueKeys] at hk2
        exact hk2
      exact mem_keys_eraseSession_of_ne (q8 k2 this) hk2ne
    · intro k2 hk2
      have hk2ne : k2 ≠ k := by
        intro hcon
        subst hcon
        have hnone : findSession (eraseSession c.sessionMap k2) k2 = none :=
          findSession_eraseSession_self q1
        exact ((findSession_eq_none_iff _ _).mp hnone) hk2
      have hk2in : k2 ∈ mapKeys c := by
        obtain ⟨e, hem, he1⟩ := List.mem_map.mp hk2
        have : e ∈ c.sessionMap := List.Sublist.mem hem (eraseSession_sublist _ _)
        exact List.mem_map.mpr ⟨e, this, he1⟩
      rw [allQueueKeys]
      rw [hcnt_ne k2 hk2ne]
      exact q9 k2 hk2in
    · intro e he qe hqe hmem
      have hem : e ∈ c.sessionMap := List.Sublist.mem he (eraseSession_sublist _ _)
      rcases mem_removeFromQueues hqe with h1 | ⟨q0, hq02, he2, _⟩
      · exact q10 e hem qe h1 hmem
      · rw [he2] at hmem ⊢
        have : e.1 ∈ q0 := mem_eraseOne hmem
        exact q10 e hem (sk.uid, q0) (getQueue_mem hq02) this

end TranscodingModel

namespace TranscodingModel

theorem head_eq_some_mem {l : List SessionKeyType} {a : SessionKeyType}
    (h : l.head? = some a) : a ∈ l := by
  cases l with
  | nil => simp at h
  | cons x rest =>
      simp only [List.head?_cons, Option.some.injEq] at h
      exact h ▸ List.mem_cons_self _ _

theorem head_append_left {l r : List SessionKeyType} {a : SessionKeyType}
    (h : l.head? = some a) : (l ++ r).head? = some a := by
  cases l with
  | nil => simp at h
  | cons x rest => simpa using h

theorem pausedMapSync_eq_none {c : Controller} (hcur : c.currentSession = none) :
    pausedMapSync c = c.sessionMap := by
  unfold pausedMapSync
  rw [hcur]

theorem pausedMapSync_eq_nofind {c : Controller} {j : SessionKeyType}
    (hcur : c.currentSession = some j) (hf : findSession c.sessionMap j = none) :
    pausedMapSync c = c.sessionMap := by
  unfold pausedMapSync
  rw [hcur]
  dsimp only
  rw [hf]

theorem pausedMapSync_eq_notrun {c : Controller} {j : SessionKeyType} {s : Session}
    (hcur : c.currentSession = some j) (hf : findSession c.sessionMap j = some s)
    (hs : s.state ≠ SessionState.RUNNING) : pausedMapSync c = c.sessionMap := by
  unfold pausedMapSync
  rw [hcur]
  dsimp only
  rw [hf]
  dsimp only
  rw [if_neg hs]

theorem pausedMapSync_eq_run {c : Controller} {j : SessionKeyType} {s : Session}
    (hcur : c.currentSession = some j) (hf : findSession c.sessionMap j = some s)
    (hs : s.state = SessionState.RUNNING) :
    pausedMapSync c = updateState c.sessionMap j SessionState.PAUSED := by
  unfold pausedMapSync
  rw [hcur]
  dsimp only
  rw [hf]
  dsimp only
  rw [if_pos hs]

theorem startedMapSync_eq_none {c : Controller} (htop : getTopSession c = none) :
    startedMapSync c = pausedMapSync c := by
  unfold startedMapSync
  rw [htop]

theorem startedMapSync_eq_nofind {c : Controller} {t : SessionKeyType}
    (htop : getTopSession c = some t) (hf : findSession (pausedMapSync c) t = none) :
    startedMapSync c = pausedMapSync c := by
  unfold startedMapSync
  rw [htop]
  dsimp only
  rw [hf]

theorem startedMapSync_eq_notstartable {c : Controller} {t : SessionKeyType} {s : Session}
    (htop : getTopSession c = some t) (hf : findSession (pausedMapSync c) t = some s)
    (hs : ¬(s.state = SessionState.NOT_STARTED ∨ s.state = SessionState.PAUSED)) :
    startedMapSync c = pausedMapSync c := by
  unfold startedMapSync
  rw [htop]
  dsimp only
  rw [hf]
  dsimp only
  rw [if_neg hs]

theorem startedMapSync_eq_start {c : Controller} {t : SessionKeyType} {s : Session}
    (htop : getTopSession c = some t) (hf : findSession (pausedMapSync c) t = some s)
    (hs : s.state = SessionState.NOT_STARTED ∨ s.state = SessionState.PAUSED) :
    startedMapSync c = updateState (pausedMapSync c) t SessionState.RUNNING := by
  unfold startedMapSync
  rw [htop]
  dsimp only
  rw [hf]
  dsimp only
  rw [if_pos hs]

theorem updateCurrentSession_flag {c : Controller} (hrl : c.resourceLost = true) :
    updateCurrentSession c = (c, []) := by
  unfold updateCurrentSession
  rw [hrl]
  rw [if_pos rfl]

theorem updateCurrentSession_eq_top {c : Controller} (hrl : c.resourceLost = false)
    (heq : c.currentSession = getTopSession c) :
    updateCurrentSession c =
      (match getTopSession c with
       | some t =>
           match findSession c.sessionMap t with
           | some s =>
               if s.state = SessionState.PAUSED then (c, [TranscoderCmd.resume t])
               else (c, [])
           | none => (c, [])
       | none => (c, [])) := by
  unfold updateCurrentSession
  rw [hrl]
  rw [if_neg (by decide), if_pos heq]

theorem updateCurrentSession_ne_top {c : Controller} (hrl : c.resourceLost = false)
    (hne : ¬(c.currentSession = getTopSession c)) :
    updateCurrentSession c =
      ({ c with currentSession := getTopSession c },
       driverPauseCmds c ++ driverStartCmds c) := by
  unfold updateCurrentSession
  rw [hrl]
  rw [if_neg (by decide), if_neg hne]

theorem updateCurrentSessionSync_flag {c : Controller} (hrl : c.resourceLost = true) :
    updateCurrentSessionSync c = (c, []) := by
  unfold updateCurrentSessionSync
  rw [hrl]
  rw [if_pos rfl]

theorem updateCurrentSessionSync_eq_top {c : Controller} (hrl : c.resourceLost = false)
    (heq : c.currentSession = getTopSession c) :
    updateCurrentSessionSync c =
      (match getTopSession c with
       | some t =>
           match findSession c.sessionMap t with
           | some s =>
               if s.state = SessionState.PAUSED then
                 ({ c with sessionMap := updateState c.sessionMap t SessionState.RUNNING },
                  [TranscoderCmd.resume t])
               else (c, [])
           | none => (c, [])
       | none => (c, [])) := by
  unfold updateCurrentSessionSync
  rw [hrl]
  rw [if_neg (by decide), if_pos heq]

theorem updateCurrentSessionSync_ne_top {c : Controller} (hrl : c.resourceLost = false)
    (hne : ¬(c.currentSession = getTopSession c)) :
    updateCurrentSessionSync c =
      ({ c with sessionMap := startedMapSync c, currentSession := getTopSession c },
       driverPauseCmds c ++ driverStartCmds c) := by
  unfold updateCurrentSessionSync
  rw [hrl]
  rw [if_neg (by decide), if_neg hne]

/-- The selector's choice is at the head of the queue of its own uid. -/
theorem headOfUid_of_top {c : Controller} {t : SessionKeyType} {s : Session}
    (hq : QueueInvProp c) (htop : getTopSession c = some t)
    (hfind : findSession c.sessionMap t = some s) :
    headOfUidQueue c s.uid = some t := by
  obtain ⟨q1, q2, q3, q4, q5, q6, q7, q8, q9, q10⟩ := hq
  obtain ⟨u, q, hu, hgq, hhd⟩ := firstQueueHead_spec htop
  have htmem : t ∈ q := head_eq_some_mem hhd
  have huuid : u = s.uid :=
    q10 (t, s) (findSession_mem hfind) (u, q) (getQueue_mem hgq) htmem
  rw [headOfUidQueue, ← huuid, hgq]
  exact hhd

end TranscodingModel

namespace TranscodingModel

theorem keys_updateState (m : List (SessionKeyType × Session)) (k : SessionKeyType)
    (st : SessionState) : (updateState m k st).map Prod.fst = m.map Prod.fst :=
  keys_updateSessionF m k _

theorem findSession_updateState_self (m : List (SessionKeyType × Session))
    (k : SessionKeyType) (st : SessionState) :
    findSession (updateState m k st) k =
      (findSession m k).map (fun s => { s with state := st }) :=
  findSession_updateSessionF_self m k _

theorem findSession_updateState_ne (m : List (SessionKeyType × Session))
    {k k2 : SessionKeyType} (st : SessionState) (h : k2 ≠ k) :
    findSession (updateState m k st) k2 = findSession m k2 :=
  findSession_updateSessionF_ne m _ h

theorem findSession_pausedMapSync_ne {c : Controller} {k : SessionKeyType}
    (hk : c.currentSession ≠ some k) :
    findSession (pausedMapSync c) k = findSession c.sessionMap k := by
  rcases hcur : c.currentSession with _ | j
  · rw [pausedMapSync_eq_none hcur]
  · rcases hf : findSession c.sessionMap j with _ | s
    · rw [pausedMapSync_eq_nofind hcur hf]
    · by_cases hs : s.state = SessionState.RUNNING
      · rw [pausedMapSync_eq_run hcur hf hs]
        have hkj : k ≠ j := by
          intro hcon
          exact hk (by rw [hcon, hcur])
        exact findSession_updateState_ne _ _ hkj
      · rw [pausedMapSync_eq_notrun hcur hf hs]

/-- After the displacement half of a synchronous driver pass, no session of
the map is RUNNING. -/
theorem pausedMapSync_not_running {c : Controller} (hnd : (mapKeys c).Nodup)
    (hr1 : ∀ e ∈ c.sessionMap, e.2.state = SessionState.RUNNING →
      c.currentSession = some e.1) :
    ∀ e ∈ pausedMapSync c, e.2.state ≠ SessionState.RUNNING := by
  intro e he hst
  rcases hcur : c.currentSession with _ | j
  · rw [pausedMapSync_eq_none hcur] at he
    have hcon := hr1 e he hst
    rw [hcur] at hcon
    exact Option.noConfusion hcon
  · rcases hf : findSession c.sessionMap j with _ | s
    · rw [pausedMapSync_eq_nofind hcur hf] at he
      have hc2 := hr1 e he hst
      rw [hcur] at hc2
      have he1 : e.1 = j := by
        injection hc2 with hh
        exact hh.symm
      have hfe : findSession c.sessionMap e.1 = some e.2 :=
        findSession_of_mem hnd (by rcases e with ⟨a, b⟩; exact he)
      rw [he1, hf] at hfe
      exact Option.noConfusion hfe
    · by_cases hs : s.state = SessionState.RUNNING
      · rw [pausedMapSync_eq_run hcur hf hs] at he
        have hndU : ((updateState c.sessionMap j SessionState.PAUSED).map Prod.fst).Nodup := by
          rw [keys_updateState]
          exact hnd
        have hfU : findSession (updateState c.sessionMap j SessionState.PAUSED) e.1 =
            some e.2 :=
          findSession_of_mem hndU (by rcases e with ⟨a, b⟩; exact he)
        by_cases he1 : e.1 = j
        · rw [he1, findSession_updateState_self, hf] at hfU
          have he2 : e.2 = { s with state := SessionState.PAUSED } := by
            injection hfU with hh
            exact hh.symm
          rw [he2] at hst
          simp at hst
        · rw [findSession_updateState_ne _ _ he1] at hfU
          have hc2 := hr1 e (findSession_mem hfU) hst
          rw [hcur] at hc2
          injection hc2 with hh
          exact he1 hh.symm
      · rw [pausedMapSync_eq_notrun hcur hf hs] at he
        have hc2 := hr1 e he hst
        rw [hcur] at hc2
        have he1 : e.1 = j := by
          injection hc2 with hh
          exact hh.symm
        have hfe : findSession c.sessionMap e.1 = some e.2 :=
          findSession_of_mem hnd (by rcases e with ⟨a, b⟩; exact he)
        rw [he1, hf] at hfe
        have he2 : e.2 = s := by
          injection hfe with hh
          exact hh.symm
        rw [he2] at hst
        exact hs hst

/-- The synchronous driver preserves the running-session invariant. -/
theorem runInv_updateCurrentSessionSync {c : Controller} (hq : QueueInvProp c)
    (hr : RunInvProp c) : RunInvProp (updateCurrentSessionSync c).1 := by
  have q1 : (mapKeys c).Nodup := hq.1
  rcases hrl : c.resourceLost with _ | _
  case true =>
    rw [updateCurrentSessionSync_flag hrl]
    exact hr
  case false =>
  by_cases heq : c.currentSession = getTopSession c
  · rw [updateCurrentSessionSync_eq_top hrl heq]
    rcases htop : getTopSession c with _ | t
    · exact hr
    · dsimp only
      rcases hf : findSession c.sessionMap t with _ | s
      · exact hr
      · dsimp only
        by_cases hs : s.state = SessionState.PAUSED
        · rw [if_pos hs]
          have hcur : c.currentSession = some t := by rw [heq, htop]
          have hndU : ((updateState c.sessionMap t SessionState.RUNNING).map Prod.fst).Nodup := by
            rw [keys_updateState]
            exact q1
          constructor
          · intro e he hst
            have hfU : findSession (updateState c.sessionMap t SessionState.RUNNING) e.1 =
                some e.2 :=
              findSession_of_mem hndU (by rcases e with ⟨a, b⟩; exact he)
            by_cases he1 : e.1 = t
            · show c.currentSession = some e.1
              rw [hcur, he1]
            · rw [findSession_updateState_ne _ _ he1] at hfU
              have hc2 := hr.1 e (findSession_mem hfU) hst
              rw [hcur] at hc2
              injection hc2 with hh
              exact absurd hh.symm he1
          · intro e he hst
            have hfU : findSession (updateState c.sessionMap t SessionState.RUNNING) e.1 =
                some e.2 :=
              findSession_of_mem hndU (by rcases e with ⟨a, b⟩; exact he)
            by_cases he1 : e.1 = t
            · rw [he1, findSession_updateState_self, hf] at hfU
              have he2 : e.2 = { s with state := SessionState.RUNNING } := by
                injection hfU with hh
                exact hh.symm
              show headOfUidQueue c e.2.uid = some e.1
              rw [he2, he1]
              show headOfUidQueue c s.uid = some t
              exact headOfUid_of_top hq htop hf
            · rw [findSession_updateState_ne _ _ he1] at hfU
              have hc2 := hr.1 e (findSession_mem hfU) hst
              rw [hcur] at hc2
              injection hc2 with hh
              exact absurd hh.symm he1
        · rw [if_neg hs]
          exact hr
  · rw [updateCurrentSessionSync_ne_top hrl heq]
    have hnr := pausedMapSync_not_running q1 hr.1
    have hndP : ((pausedMapSync c).map Prod.fst).Nodup := by
      rw [(keysUidEq_pausedMapSync c).1]
      exact q1
    rcases htop : getTopSession c with _ | t
    · rw [startedMapSync_eq_none htop]
      constructor
      · intro e he hst
        exact absurd hst (hnr e he)
      · intro e he hst
        exact absurd hst (hnr e he)
    · rcases hf2 : findSession (pausedMapSync c) t with _ | s2
      · rw [startedMapSync_eq_nofind htop hf2]
        constructor
        · intro e he hst
          exact absurd hst (hnr e he)
        · intro e he hst
          exact absurd hst (hnr e he)
      · by_cases hs2 : s2.state = SessionState.NOT_STARTED ∨ s2.state = SessionState.PAUSED
        · rw [startedMapSync_eq_start htop hf2 hs2]
          have hndU : ((updateState (pausedMapSync c) t SessionState.RUNNING).map
              Prod.fst).Nodup := by
            rw [keys_updateState]
            exact hndP
          have hfmt : findSession c.sessionMap t = some s2 := by
            rw [← findSession_pausedMapSync_ne (by rw [htop] at heq; exact heq)]
            exact hf2
          constructor
          · intro e he hst
            have hfU : findSession (updateState (pausedMapSync c) t SessionState.RUNNING)
                e.1 = some e.2 :=
              findSession_of_mem hndU (by rcases e with ⟨a, b⟩; exact he)
            by_cases he1 : e.1 = t
            · show (some t : Option SessionKeyType) = some e.1
              rw [he1]
            · rw [findSession_updateState_ne _ _ he1] at hfU
              exact absurd hst (hnr e (findSession_mem hfU))
          · intro e he hst
            have hfU : findSession (updateState (pausedMapSync c) t SessionState.RUNNING)
                e.1 = some e.2 :=
              findSession_of_mem hndU (by rcases e with ⟨a, b⟩; exact he)
            by_cases he1 : e.1 = t
            · rw [he1, findSession_updateState_self, hf2] at hfU
              have he2 : e.2 = { s2 with state := SessionState.RUNNING } := by
                injection hfU with hh
                exact hh.symm
              show headOfUidQueue c e.2.uid = some e.1
              rw [he2, he1]
              show headOfUidQueue c s2.uid = some t
              exact headOfUid_of_top hq htop hfmt
            · rw [findSession_updateState_ne _ _ he1] at hfU
              exact absurd hst (hnr e (findSession_mem hfU))
        · rw [startedMapSync_eq_notstartable htop hf2 hs2]
          constructor
          · intro e he hst
            exact absurd hst (hnr e he)
          · intro e he hst
            exact absurd hst (hnr e he)

end TranscodingModel

namespace TranscodingModel

theorem head_some_ne_nil {l : List SessionKeyType} {a : SessionKeyType}
    (h : l.head? = some a) : l ≠ [] := by
  cases l with
  | nil => simp at h
  | cons x rest => simp

theorem runInv_insertEnqueue {c : Controller} {k : SessionKeyType} {uid : Int}
    {req : Nat} (hr : RunInvProp c) :
    RunInvProp (enqueueSession (insertSession c k uid req) uid k) := by
  constructor
  · intro e he hst
    rcases List.mem_append.mp he with h1 | h1
    · exact hr.1 e h1 hst
    · rw [List.mem_singleton] at h1
      rw [h1] at hst
      simp [mkSession] at hst
  · intro e he hst
    rcases List.mem_append.mp he with h1 | h1
    · have hh := hr.2 e h1 hst
      show headOfUidQueue (enqueueSession (insertSession c k uid req) uid k) e.2.uid =
        some e.1
      rw [headOfUidQueue] at hh ⊢
      by_cases hu : e.2.uid = uid
      · rw [hu] at hh ⊢
        rcases hgq : getQueue c.sessionQueues uid with _ | q
        · rw [hgq] at hh
          exact Option.noConfusion hh
        · rw [hgq] at hh
          dsimp only at hh
          have hget : getQueue
              (enqueueSession (insertSession c k uid req) uid k).sessionQueues uid =
              some (q ++ [k]) := by
            show getQueue (enqueueQueues c.sessionQueues uid k) uid = some (q ++ [k])
            rw [getQueue_enqueueQueues_self, hgq]
            rfl
          rw [hget]
          dsimp only
          exact head_append_left hh
      · have hget : getQueue
            (enqueueSession (insertSession c k uid req) uid k).sessionQueues e.2.uid =
            getQueue c.sessionQueues e.2.uid := by
          show getQueue (enqueueQueues c.sessionQueues uid k) e.2.uid =
            getQueue c.sessionQueues e.2.uid
          exact getQueue_enqueueQueues_ne _ _ hu
        rw [hget]
        exact hh
    · rw [List.mem_singleton] at h1
      rw [h1] at hst
      simp [mkSession] at hst

theorem runInv_removeSession {c : Controller} (k : SessionKeyType)
    (hq : QueueInvProp c) (hr : RunInvProp c) : RunInvProp (removeSession c k) := by
  obtain ⟨q1, q2, q3, q4, q5, q6, q7, q8, q9, q10⟩ := hq
  rcases hfind : findSession c.sessionMap k with _ | sk
  · rw [removeSession_eq_of_none hfind]
    exact hr
  · rw [removeSession_eq_of_some hfind]
    have hmemErase : ∀ e : SessionKeyType × Session, e ∈ eraseSession c.sessionMap k →
        e ∈ c.sessionMap ∧ e.1 ≠ k := by
      intro e he
      refine ⟨List.Sublist.mem he (eraseSession_sublist _ _), ?_⟩
      intro hcon
      have hnone : findSession (eraseSession c.sessionMap k) k = none :=
        findSession_eraseSession_self q1
      rw [findSession_eq_none_iff] at hnone
      exact hnone (List.mem_map.mpr ⟨e, he, hcon⟩)
    constructor
    · intro e he hst
      obtain ⟨hem, hne⟩ := hmemErase e he
      have hcur := hr.1 e hem hst
      by_cases hc : c.currentSession = some k
      · rw [hc] at hcur
        injection hcur with hh
        exact absurd hh.symm hne
      · show (if c.currentSession = some k then none else c.currentSession) = some e.1
        rw [if_neg hc]
        exact hcur
    · intro e he hst
      obtain ⟨hem, hne⟩ := hmemErase e he
      have hh := hr.2 e hem hst
      rw [headOfUidQueue] at hh
      show headOfUidQueue _ e.2.uid = some e.1
      rw [headOfUidQueue]
      by_cases hu : e.2.uid = sk.uid
      · rcases hgq : getQueue c.sessionQueues e.2.uid with _ | q
        · rw [hgq] at hh
          exact Option.noConfusion hh
        · rw [hgq] at hh
          dsimp only at hh
          have hgq2 : getQueue c.sessionQueues sk.uid = some q := by
            rw [← hu]
            exact hgq
          have herase : (eraseOne q k).head? = some e.1 := head_eraseOne hh hne
          have hrw : getQueue (removeFromQueues c.sessionQueues sk.uid k) e.2.uid =
              if eraseOne q k = [] then none else some (eraseOne q k) := by
            rw [hu]
            exact getQueue_removeFromQueues_self_some k q2 hgq2
          rw [hrw, if_neg (head_some_ne_nil herase)]
          dsimp only
          exact herase
      · have hrw : getQueue (removeFromQueues c.sessionQueues sk.uid k) e.2.uid =
            getQueue c.sessionQueues e.2.uid :=
          getQueue_removeFromQueues_ne _ _ hu
        rw [hrw]
        exact hh

theorem keysUidEq_updateSessionF {m : List (SessionKeyType × Session)}
    {k : SessionKeyType} {f : Session → Session} (hfu : ∀ s, (f s).uid = s.uid) :
    KeysUidEq m (updateSessionF m k f) := by
  refine ⟨keys_updateSessionF m k _, ?_⟩
  intro e he
  rcases mem_updateSessionF he with h1 | ⟨s0, hs0, he2⟩
  · exact ⟨e.2, h1, rfl⟩
  · refine ⟨s0, by rw [he2]; exact hs0, ?_⟩
    rw [he2]
    exact hfu s0

theorem runInv_updateSessionF_preserve {c : Controller} {k : SessionKeyType}
    {f : Session → Session} (hfs : ∀ s, (f s).state = s.state)
    (hfu : ∀ s, (f s).uid = s.uid) (hr : RunInvProp c) :
    RunInvProp { c with sessionMap := updateSessionF c.sessionMap k f } := by
  constructor
  · intro e he hst
    rcases mem_updateSessionF he with h1 | ⟨s0, hs0, he2⟩
    · exact hr.1 e h1 hst
    · rw [he2] at hst
      have hs0run : s0.state = SessionState.RUNNING := by
        rw [← hfs s0]
        exact hst
      have := hr.1 (k, s0) hs0 hs0run
      rw [he2]
      exact this
  · intro e he hst
    rcases mem_updateSessionF he with h1 | ⟨s0, hs0, he2⟩
    · exact hr.2 e h1 hst
    · rw [he2] at hst
      have hs0run : s0.state = SessionState.RUNNING := by
        rw [← hfs s0]
        exact hst
      have := hr.2 (k, s0) hs0 hs0run
      rw [he2]
      show headOfUidQueue _ (f s0).uid = some k
      rw [hfu s0]
      exact this

theorem queueInv_moveUids {c : Controller} (uids : List Int) (pt : Bool)
    (hq : QueueInvProp c) :
    QueueInvProp { c with uidSortedList := moveUidsToTop c.uidSortedList uids pt } := by
  obtain ⟨q1, q2, q3, q4, q5, q6, q7, q8, q9, q10⟩ := hq
  refine ⟨q1, q2, ?_, ?_, q5, ?_, ?_, q8, q9, q10⟩
  · exact nodup_moveUidsToTop uids pt q3
  · exact (mem_moveUidsToTop _ _ _ _).mpr q4
  · intro e he
    exact (mem_moveUidsToTop _ _ _ _).mpr (q6 e he)
  · intro u hu hne
    exact q7 u ((mem_moveUidsToTop _ _ _ _).mp hu) hne

end TranscodingModel

namespace TranscodingModel

theorem queueInv_applyOp (c : Controller) (op : ControllerOp) (hq : QueueInvProp c) :
    QueueInvProp (applyOp c op) := by
  cases op with
  | submit a b u r =>
      show QueueInvProp (submitD updateCurrentSession c a b u r).1
      unfold submitD
      dsimp only
      rcases hf : findSession c.sessionMap (a, b) with _ | s
      · dsimp only
        exact queueInv_updateCurrentSession (queueInv_insertEnqueue hq hf)
      · exact hq
  | cancel a b =>
      show QueueInvProp (cancelD updateCurrentSession c a b).1
      unfold cancelD
      dsimp only
      rcases hf : findSession c.sessionMap (a, b) with _ | s
      · exact hq
      · dsimp only
        exact queueInv_updateCurrentSession (queueInv_removeSession _ hq)
  | started a b =>
      show QueueInvProp (onStarted c (a, b))
      unfold onStarted
      rcases hf : findSession c.sessionMap (a, b) with _ | s
      · exact hq
      · dsimp only
        by_cases hs : s.state = SessionState.NOT_STARTED ∨ s.state = SessionState.PAUSED
        · rw [if_pos hs]
          exact queueInvProp_of hq (keysUidEq_updateState _ _ _) rfl rfl
        · rw [if_neg hs]
          exact hq
  | paused a b =>
      show QueueInvProp (onPausedD updateCurrentSession c (a, b)).1
      unfold onPausedD
      rcases hf : findSession c.sessionMap (a, b) with _ | s
      · exact hq
      · dsimp only
        by_cases hs : s.state = SessionState.RUNNING
        · rw [if_pos hs]
          exact queueInv_updateCurrentSession
            (queueInvProp_of hq (keysUidEq_updateState _ _ _) rfl rfl)
        · rw [if_neg hs]
          exact hq
  | resumed a b =>
      show QueueInvProp (onResumed c (a, b))
      unfold onResumed
      rcases hf : findSession c.sessionMap (a, b) with _ | s
      · exact hq
      · dsimp only
        by_cases hs : s.state = SessionState.PAUSED
        · rw [if_pos hs]
          exact queueInvProp_of hq (keysUidEq_updateState _ _ _) rfl rfl
        · rw [if_neg hs]
          exact hq
  | finish a b =>
      show QueueInvProp (onFinishD updateCurrentSession c (a, b)).1
      unfold onFinishD
      rcases hf : findSession c.sessionMap (a, b) with _ | s
      · exact hq
      · dsimp only
        exact queueInv_updateCurrentSession (queueInv_removeSession _ hq)
  | error a b err =>
      show QueueInvProp (onErrorD updateCurrentSession c (a, b) err).1
      unfold onErrorD
      rcases hf : findSession c.sessionMap (a, b) with _ | s
      · exact hq
      · dsimp only
        exact queueInv_updateCurrentSession (queueInv_removeSession _ hq)
  | progress a b p =>
      show QueueInvProp (onProgressUpdate c (a, b) p)
      unfold onProgressUpdate
      rcases hf : findSession c.sessionMap (a, b) with _ | s
      · exact hq
      · dsimp only
        exact queueInvProp_of hq (keysUidEq_updateSessionF (fun s2 => rfl)) rfl rfl
  | topUids uids =>
      show QueueInvProp (onTopUidsChangedD updateCurrentSession c uids).1
      unfold onTopUidsChangedD
      exact queueInv_updateCurrentSession (queueInv_moveUids _ _ hq)
  | resourceLost =>
      show QueueInvProp (onResourceLost c).1
      unfold onResourceLost
      rcases hcur : c.currentSession with _ | j
      · exact hq
      · dsimp only
        rcases hf : findSession c.sessionMap j with _ | s
        · exact queueInvProp_of hq (keysUidEq_refl _) rfl rfl
        · dsimp only
          exact queueInvProp_of hq (keysUidEq_refl _) rfl rfl
  | resourceAvailable =>
      show QueueInvProp (onResourceAvailableD updateCurrentSession c).1
      unfold onResourceAvailableD
      exact queueInv_updateCurrentSession (queueInvProp_of hq (keysUidEq_refl _) rfl rfl)

theorem syncInv_applySyncOp (c : Controller) (op : SyncOp) (hq : QueueInvProp c)
    (hr : RunInvProp c) :
    QueueInvProp (applySyncOp c op) ∧ RunInvProp (applySyncOp c op) := by
  cases op with
  | submit a b u r =>
      show QueueInvProp (submitD updateCurrentSessionSync c a b u r).1 ∧
        RunInvProp (submitD updateCurrentSessionSync c a b u r).1
      unfold submitD
      dsimp only
      rcases hf : findSession c.sessionMap (a, b) with _ | s
      · dsimp only
        have hq2 := @queueInv_insertEnqueue c (a, b) u r hq hf
        have hr2 := @runInv_insertEnqueue c (a, b) u r hr
        exact ⟨queueInv_updateCurrentSessionSync hq2,
          runInv_updateCurrentSessionSync hq2 hr2⟩
      · exact ⟨hq, hr⟩
  | cancel a b =>
      show QueueInvProp (cancelD updateCurrentSessionSync c a b).1 ∧
        RunInvProp (cancelD updateCurrentSessionSync c a b).1
      unfold cancelD
      dsimp only
      rcases hf : findSession c.sessionMap (a, b) with _ | s
      · exact ⟨hq, hr⟩
      · dsimp only
        have hq2 := queueInv_removeSession (a, b) hq
        have hr2 := runInv_removeSession (a, b) hq hr
        exact ⟨queueInv_updateCurrentSessionSync hq2,
          runInv_updateCurrentSessionSync hq2 hr2⟩
  | finish a b =>
      show QueueInvProp (onFinishD updateCurrentSessionSync c (a, b)).1 ∧
        RunInvProp (onFinishD updateCurrentSessionSync c (a, b)).1
      unfold onFinishD
      rcases hf : findSession c.sessionMap (a, b) with _ | s
      · exact ⟨hq, hr⟩
      · dsimp only
        have hq2 := queueInv_removeSession (a, b) hq
        have hr2 := runInv_removeSession (a, b) hq hr
        exact ⟨queueInv_updateCurrentSessionSync hq2,
          runInv_updateCurrentSessionSync hq2 hr2⟩
  | error a b err =>
      show QueueInvProp (onErrorD updateCurrentSessionSync c (a, b) err).1 ∧
        RunInvProp (onErrorD updateCurrentSessionSync c (a, b) err).1
      unfold onErrorD
      rcases hf : findSession c.sessionMap (a, b) with _ | s
      · exact ⟨hq, hr⟩
      · dsimp only
        have hq2 := queueInv_removeSession (a, b) hq
        have hr2 := runInv_removeSession (a, b) hq hr
        exact ⟨queueInv_updateCurrentSessionSync hq2,
          runInv_updateCurrentSessionSync hq2 hr2⟩
  | progress a b p =>
      show QueueInvProp (onProgressUpdate c (a, b) p) ∧
        RunInvProp (onProgressUpdate c (a, b) p)
      unfold onProgressUpdate
      rcases hf : findSession c.sessionMap (a, b) with _ | s
      · exact ⟨hq, hr⟩
      · dsimp only
        exact ⟨queueInvProp_of hq (keysUidEq_updateSessionF (fun s2 => rfl)) rfl rfl,
          runInv_updateSessionF_preserve (fun s2 => rfl) (fun s2 => rfl) hr⟩
  | topUids uids =>
      show QueueInvProp (onTopUidsChangedD updateCurrentSessionSync c uids).1 ∧
        RunInvProp (onTopUidsChangedD updateCurrentSessionSync c uids).1
      unfold onTopUidsChangedD
      have hq2 := queueInv_moveUids uids c.currentSession.isSome hq
      have hr2 : RunInvProp { c with
          uidSortedList := moveUidsToTop c.uidSortedList uids c.currentSession.isSome } :=
        runInvProp_of hr rfl rfl rfl
      exact ⟨queueInv_updateCurrentSessionSync hq2,
        runInv_updateCurrentSessionSync hq2 hr2⟩
  | resourceLost =>
      show QueueInvProp (onResourceLostSync c).1 ∧ RunInvProp (onResourceLostSync c).1
      unfold onResourceLostSync
      rcases hcur : c.currentSession with _ | j
      · exact ⟨hq, hr⟩
      · dsimp only
        rcases hf : findSession c.sessionMap j with _ | s
        · exact ⟨queueInvProp_of hq (keysUidEq_refl _) rfl rfl,
            runInvProp_of hr rfl rfl (by rw [hcur])⟩
        · dsimp only
          by_cases hs : s.state = SessionState.RUNNING
          · rw [if_pos hs]
            refine ⟨queueInvProp_of hq (keysUidEq_updateState _ _ _) rfl rfl, ?_, ?_⟩
            · intro e he hst
              exfalso
              have hndU : ((updateState c.sessionMap j SessionState.PAUSED).map
                  Prod.fst).Nodup := by
                rw [keys_updateState]
                exact hq.1
              have hfU : findSession (updateState c.sessionMap j SessionState.PAUSED)
                  e.1 = some e.2 :=
                findSession_of_mem hndU (by rcases e with ⟨x, y⟩; exact he)
              by_cases he1 : e.1 = j
              · rw [he1, findSession_updateState_self, hf] at hfU
                have he2 : e.2 = { s with state := SessionState.PAUSED } := by
                  injection hfU with hh
                  exact hh.symm
                rw [he2] at hst
                simp at hst
              · rw [findSession_updateState_ne _ _ he1] at hfU
                have hc2 := hr.1 e (findSession_mem hfU) hst
                rw [hcur] at hc2
                injection hc2 with hh
                exact he1 hh.symm
            · intro e he hst
              exfalso
              have hndU : ((updateState c.sessionMap j SessionState.PAUSED).map
                  Prod.fst).Nodup := by
                rw [keys_updateState]
                exact hq.1
              have hfU : findSession (updateState c.sessionMap j SessionState.PAUSED)
                  e.1 = some e.2 :=
                findSession_of_mem hndU (by rcases e with ⟨x, y⟩; exact he)
              by_cases he1 : e.1 = j
              · rw [he1, findSession_updateState_self, hf] at hfU
                have he2 : e.2 = { s with state := SessionState.PAUSED } := by
                  injection hfU with hh
                  exact hh.symm
                rw [he2] at hst
                simp at hst
              · rw [findSession_updateState_ne _ _ he1] at hfU
                have hc2 := hr.1 e (findSession_mem hfU) hst
                rw [hcur] at hc2
                injection hc2 with hh
                exact he1 hh.symm
          · rw [if_neg hs]
            exact ⟨queueInvProp_of hq (keysUidEq_refl _) rfl rfl,
              runInvProp_of hr rfl rfl (by rw [hcur])⟩
  | resourceAvailable =>
      show QueueInvProp (onResourceAvailableD updateCurrentSessionSync c).1 ∧
        RunInvProp (onResourceAvailableD updateCurrentSessionSync c).1
      unfold onResourceAvailableD
      have hq2 : QueueInvProp { c with resourceLost := false } :=
        queueInvProp_of hq (keysUidEq_refl _) rfl rfl
      have hr2 : RunInvProp { c with resourceLost := false } :=
        runInvProp_of hr rfl rfl rfl
      exact ⟨queueInv_updateCurrentSessionSync hq2,
        runInv_updateCurrentSessionSync hq2 hr2⟩

theorem queueInv_initial : QueueInvProp initialController := by decide

theorem runInv_initial : RunInvProp initialController := by decide

theorem queueInv_runOps (ops : List ControllerOp) : QueueInvProp (runOps ops) := by
  rw [runOps]
  induction ops using List.reverseRecOn with
  | nil => exact queueInv_initial
  | append_singleton rest op ih =>
      rw [List.foldl_append, List.foldl_cons, List.foldl_nil]
      exact queueInv_applyOp _ op ih

theorem syncInv_runSyncOps (ops : List SyncOp) :
    QueueInvProp (runSyncOps ops) ∧ RunInvProp (runSyncOps ops) := by
  rw [runSyncOps]
  induction ops using List.reverseRecOn with
  | nil => exact ⟨queueInv_initial, runInv_initial⟩
  | append_singleton rest op ih =>
      rw [List.foldl_append, List.foldl_cons, List.foldl_nil]
      exact syncInv_applySyncOp _ op ih.1 ih.2

end TranscodingModel

namespace TranscodingModel

theorem driverPauseCmds_all_pause (c : Controller) :
    ∀ x ∈ driverPauseCmds c, isPause x = true := by
  intro x hx
  unfold driverPauseCmds at hx
  rcases hcur : c.currentSession with _ | j
  · rw [hcur] at hx
    simp at hx
  · rw [hcur] at hx
    dsimp only at hx
    rcases hf : findSession c.sessionMap j with _ | s
    · rw [hf] at hx
      simp at hx
    · rw [hf] at hx
      dsimp only at hx
      by_cases hs : s.state = SessionState.RUNNING
      · rw [if_pos hs] at hx
        rw [List.mem_singleton] at hx
        rw [hx]
        rfl
      · rw [if_neg hs] at hx
        simp at hx

theorem driverStartCmds_no_pause (c : Controller) :
    ∀ x ∈ driverStartCmds c, isPause x = false := by
  intro x hx
  unfold driverStartCmds at hx
  rcases htop : getTopSession c with _ | t
  · rw [htop] at hx
    simp at hx
  · rw [htop] at hx
    dsimp only at hx
    rcases hf : findSession c.sessionMap t with _ | s
    · rw [hf] at hx
      simp at hx
    · rw [hf] at hx
      dsimp only at hx
      by_cases hs1 : s.state = SessionState.NOT_STARTED
      · rw [if_pos hs1] at hx
        rw [List.mem_singleton] at hx
        rw [hx]
        rfl
      · rw [if_neg hs1] at hx
        by_cases hs2 : s.state = SessionState.PAUSED
        · rw [if_pos hs2] at hx
          rw [List.mem_singleton] at hx
          rw [hx]
          rfl
        · rw [if_neg hs2] at hx
          simp at hx

theorem isStartOrResume_ne_pause (x : TranscoderCmd) (h : isStartOrResume x = true) :
    isPause x = false := by
  cases x <;> simp [isPause, isStartOrResume] at h ⊢

theorem updateCurrentSession_cmds_cases (c : Controller) :
    (updateCurrentSession c).2 = [] ∨
    (∃ t, (updateCurrentSession c).2 = [TranscoderCmd.resume t]) ∨
    (updateCurrentSession c).2 = driverPauseCmds c ++ driverStartCmds c := by
  unfold updateCurrentSession
  repeat' split
  all_goals first
    | exact Or.inl rfl
    | exact Or.inr (Or.inr rfl)
    | exact Or.inr (Or.inl ⟨_, rfl⟩)

theorem pause_lt_of_decomp {l p s : List TranscoderCmd} (hl : l = p ++ s)
    (hp : ∀ x ∈ p, isPause x = true) (hs : ∀ x ∈ s, isPause x = false)
    {i j : Nat} (hi : i < l.length) (hj : j < l.length)
    (h1 : isPause (l.get ⟨i, hi⟩) = true) (h2 : isPause (l.get ⟨j, hj⟩) = false) :
    i < j := by
  subst hl
  have hip : i < p.length := by
    by_contra hcon
    push_neg at hcon
    have hibound : i - p.length < s.length := by
      rw [List.length_append] at hi
      omega
    have heq : (p ++ s).get ⟨i, hi⟩ = s.get ⟨i - p.length, hibound⟩ :=
      List.getElem_append_right hcon
    rw [heq] at h1
    rw [hs _ (List.get_mem s _ _)] at h1
    exact Bool.noConfusion h1
  have hjp : p.length ≤ j := by
    by_contra hcon
    push_neg at hcon
    have heq : (p ++ s).get ⟨j, hj⟩ = p.get ⟨j, hcon⟩ :=
      List.getElem_append_left hcon
    rw [heq] at h2
    rw [hp _ (List.get_mem p _ _)] at h2
    exact Bool.noConfusion h2
  omega

end TranscodingModel

namespace TranscodingModel

/-- C1: the claim as stated fails on the modelled controller: after the
operation sequence submit (1,1), submit (1,2) (same uid), onStarted (1,1),
onStarted (1,2) — the last being an acknowledgment the transcoder never
owed, which the event sink nevertheless accepts since (1,2) exists in
state NOT_STARTED — two sessions of the registry are simultaneously in
state RUNNING. -/
theorem c1_single_runner_counterexample :
    ¬ atMostOneRunning (runOps
      [ControllerOp.submit 1 1 100 0, ControllerOp.submit 1 2 100 0,
       ControllerOp.started 1 1, ControllerOp.started 1 2]) := by
  decide

/-- C1 (amended): after any sequence of submit, cancel, finish, error,
progress, and policy operations under acknowledgment-synchronous semantics
(each start/pause/resume command acknowledged before the next operation),
at most one session in the registry is in state RUNNING. -/
theorem c1_single_runner_sync (ops : List SyncOp) :
    atMostOneRunning (runSyncOps ops) := by
  intro e1 he1 e2 he2 h1 h2
  have hr := (syncInv_runSyncOps ops).2
  have hc1 := hr.1 e1 he1 h1
  have hc2 := hr.1 e2 he2 h2
  rw [hc1] at hc2
  injection hc2

/-- C2: the claim as stated fails on the modelled controller: after
submit (1,1), submit (1,2) (same uid), onStarted (1,1), onStarted (1,2),
session (1,2) is RUNNING yet sits behind (1,1) in the queue of uid 100,
so it is not at the head of its uid's queue. -/
theorem c2_queue_membership_counterexample :
    ¬ (eachSessionQueuedOnce (runOps
        [ControllerOp.submit 1 1 100 0, ControllerOp.submit 1 2 100 0,
         ControllerOp.started 1 1, ControllerOp.started 1 2]) ∧
       runningAtHead (runOps
        [ControllerOp.submit 1 1 100 0, ControllerOp.submit 1 2 100 0,
         ControllerOp.started 1 1, ControllerOp.started 1 2])) := by
  decide

/-- C2 (amended): in every state reachable by the asynchronous controller,
each session of the registry sits in exactly one uid queue at exactly one
position; and under acknowledgment-synchronous semantics each RUNNING
session is additionally at the head of its uid's queue. -/
theorem c2_queue_membership (ops : List ControllerOp) (sops : List SyncOp) :
    eachSessionQueuedOnce (runOps ops) ∧ runningAtHead (runSyncOps sops) := by
  constructor
  · intro e he
    have hq := queueInv_runOps ops
    exact hq.2.2.2.2.2.2.2.2.1 e.1 (List.mem_map.mpr ⟨e, he, rfl⟩)
  · intro e he hst
    exact (syncInv_runSyncOps sops).2.2 e he hst

/-- C3: in any single driver invocation, every pause command (for the
displaced running session) is issued at a strictly earlier position of the
command sequence than every start or resume command (for the replacement
session). -/
theorem c3_pause_before_start (c : Controller) (i j : Nat)
    (hi : i < (updateCurrentSession c).2.length)
    (hj : j < (updateCurrentSession c).2.length)
    (h1 : isPause ((updateCurrentSession c).2.get ⟨i, hi⟩) = true)
    (h2 : isStartOrResume ((updateCurrentSession c).2.get ⟨j, hj⟩) = true) :
    i < j := by
  have h2b := isStartOrResume_ne_pause _ h2
  rcases updateCurrentSession_cmds_cases c with hc | ⟨t, hc⟩ | hc
  · exact absurd hi (by rw [hc]; simp)
  · refine pause_lt_of_decomp (p := []) (s := [TranscoderCmd.resume t]) ?_ ?_ ?_ hi hj h1 h2b
    · rw [hc, List.nil_append]
    · intro x hx
      simp at hx
    · intro x hx
      rw [List.mem_singleton] at hx
      rw [hx]
      rfl
  · exact pause_lt_of_decomp hc (driverPauseCmds_all_pause c)
      (driverStartCmds_no_pause c) hi hj h1 h2b

/-- C3 witness: a concrete invocation that both displaces a running
session and schedules a replacement, with the pause at index 0 and the
start at index 1. -/
theorem c3_pause_before_start_witness : 0 < 1 :=
  c3_pause_before_start
    (Controller.mk
      [((1, 1), Session.mk (1, 1) (-1) SessionState.RUNNING 0 0),
       ((2, 1), Session.mk (2, 1) 100 SessionState.NOT_STARTED 0 0)]
      [(-1, [(1, 1)]), (100, [(2, 1)])] [100, -1] (some (1, 1)) false)
    0 1 (by decide) (by decide) (by decide) (by decide)

/-- C4: submitting a key that already exists in the registry returns
false, changes nothing, and issues no transcoder commands. -/
theorem c4_submit_duplicate (c : Controller) (a b u : Int) (r : Nat) (s : Session)
    (hf : findSession c.sessionMap (a, b) = some s) :
    submitD updateCurrentSession c a b u r = (c, false, []) := by
  unfold submitD
  dsimp only
  rw [hf]

/-- C4 witness: a duplicate submit of (1,1) on a state that holds (1,1)
returns false and leaves the state unchanged. -/
theorem c4_submit_duplicate_witness :
    submitD updateCurrentSession (runOps [ControllerOp.submit 1 1 100 0]) 1 1 100 0 =
      (runOps [ControllerOp.submit 1 1 100 0], false, []) :=
  c4_submit_duplicate (runOps [ControllerOp.submit 1 1 100 0]) 1 1 100 0
    (mkSession (1, 1) 100 0) (by decide)

end TranscodingModel

namespace TranscodingModel

theorem removeFromQueues_enqueueQueues_cancel {qs : List (Int × List SessionKeyType)}
    {u : Int} {k : SessionKeyType} (hk : k ∉ joinQueues qs)
    (hne : ∀ e ∈ qs, e.2 ≠ []) :
    removeFromQueues (enqueueQueues qs u k) u k = qs := by
  induction qs with
  | nil => simp [enqueueQueues, removeFromQueues, eraseOne]
  | cons e rest ih =>
      have hk1 : k ∉ e.2 := by
        intro hcon
        exact hk (by rw [joinQueues, List.mem_append]; exact Or.inl hcon)
      have hk2 : k ∉ joinQueues rest := by
        intro hcon
        exact hk (by rw [joinQueues, List.mem_append]; exact Or.inr hcon)
      by_cases he : e.1 = u
      · simp only [enqueueQueues, if_pos he, removeFromQueues, if_pos he]
        rw [eraseOne_append_singleton hk1]
        rw [if_neg (hne e (List.mem_cons_self _ _))]
      · simp only [enqueueQueues, if_neg he, removeFromQueues, if_neg he]
        rw [ih hk2 (fun e2 he2 => hne e2 (List.mem_cons_of_mem _ he2))]

/-- The selector returns nothing when there are no queues at all. -/
theorem firstQueueHead_nil (order : List Int) :
    firstQueueHead order [] = none := by
  induction order with
  | nil => rfl
  | cons x rest ih => exact ih

/-- With a single one-element queue the selector returns that element as
soon as the queue's uid appears somewhere in the ordering. -/
theorem firstQueueHead_single (order : List Int) (u : Int) (k : SessionKeyType)
    (hu : u ∈ order) :
    firstQueueHead order [(u, [k])] = some k := by
  induction order with
  | nil => cases hu
  | cons x rest ih =>
      unfold firstQueueHead
      by_cases h : u = x
      · have hgq : getQueue [(u, [k])] x = some [k] := by
          simp [getQueue, h]
        rw [hgq]
      · have hgq : getQueue [(u, [k])] x = none := by
          simp [getQueue, h]
        rw [hgq]
        exact ih ((List.mem_cons.mp hu).resolve_left h)

/-- Removing the freshly inserted and enqueued key undoes both the map
insert and the enqueue exactly, whatever the current pointer holds at the
time of the removal: map, queues and uid ordering return to their
pre-submit values, and the pointer is cleared exactly when it pointed at
the removed key. -/
theorem removeSession_enqueue_insert_cancel (c : Controller) (a b u : Int) (r : Nat)
    (cur : Option SessionKeyType)
    (hq : QueueInvProp c)
    (hfk : findSession c.sessionMap (a, b) = none) :
    removeSession
      (Controller.mk (c.sessionMap ++ [((a, b), mkSession (a, b) u r)])
        (enqueueQueues c.sessionQueues u (a, b))
        (if u ∈ c.uidSortedList then c.uidSortedList
         else insertBeforeOffline c.uidSortedList u)
        cur c.resourceLost) (a, b) =
      Controller.mk c.sessionMap c.sessionQueues c.uidSortedList
        (if cur = some (a, b) then none else cur) c.resourceLost := by
  obtain ⟨q1, q2, q3, q4, q5, q6, q7, q8, q9, q10⟩ := hq
  have hknotq : (a, b) ∉ allQueueKeys c := by
    intro hcon
    exact ((findSession_eq_none_iff _ _).mp hfk) (q8 _ hcon)
  have hfind2k :
      findSession (c.sessionMap ++ [((a, b), mkSession (a, b) u r)]) (a, b) =
        some (mkSession (a, b) u r) := by
    rw [findSession_append_right _ hfk]
    simp [findSession]
  have hrw := @removeSession_eq_of_some
    (Controller.mk (c.sessionMap ++ [((a, b), mkSession (a, b) u r)])
      (enqueueQueues c.sessionQueues u (a, b))
      (if u ∈ c.uidSortedList then c.uidSortedList
       else insertBeforeOffline c.uidSortedList u)
      cur c.resourceLost) (a, b) (mkSession (a, b) u r) hfind2k
  rw [hrw]
  show Controller.mk
      (eraseSession (c.sessionMap ++ [((a, b), mkSession (a, b) u r)]) (a, b))
      (removeFromQueues (enqueueQueues c.sessionQueues u (a, b)) u (a, b))
      (if u ≠ offlineUid ∧
          getQueue (removeFromQueues (enqueueQueues c.sessionQueues u (a, b)) u (a, b))
            u = none then
        eraseUid
          (if u ∈ c.uidSortedList then c.uidSortedList
           else insertBeforeOffline c.uidSortedList u) u
      else
        (if u ∈ c.uidSortedList then c.uidSortedList
         else insertBeforeOffline c.uidSortedList u))
      (if cur = some (a, b) then none else cur) c.resourceLost =
    Controller.mk c.sessionMap c.sessionQueues c.uidSortedList
      (if cur = some (a, b) then none else cur) c.resourceLost
  rw [eraseSession_append_singleton _ hfk]
  rw [removeFromQueues_enqueueQueues_cancel hknotq q5]
  by_cases hu : u ∈ c.uidSortedList
  · have hcond : ¬ (u ≠ offlineUid ∧ getQueue c.sessionQueues u = none) := by
      rintro ⟨h1, h2⟩
      exact q7 u hu h1 h2
    rw [if_pos hu, if_neg hcond]
  · have hune : u ≠ offlineUid := by
      intro hcon
      rw [hcon] at hu
      exact hu q4
    have hgq : getQueue c.sessionQueues u = none := by
      rw [getQueue_eq_none_iff]
      intro hcon
      obtain ⟨e, hem, he1⟩ := List.mem_map.mp hcon
      exact hu (he1 ▸ q6 e hem)
    rw [if_neg hu, if_pos ⟨hune, hgq⟩]
    rw [eraseUid_insertBeforeOffline hu]

/-- C5: the claim as stated fails on the modelled controller: from a
reachable state in which offline session (1,1) is running as current,
submit (2,1) under uid 100 preempts it, so the paired submit/cancel of
(2,1) emits a pause command for (1,1) in addition to the paired start and
stop for (2,1). -/
theorem c5_roundtrip_counterexample :
    ¬ (∀ cmd ∈ (submitD updateCurrentSession
          (runOps [ControllerOp.submit 1 1 (-1) 0, ControllerOp.started 1 1])
          2 1 100 0).2.2 ++
        (cancelD updateCurrentSession
          (submitD updateCurrentSession
            (runOps [ControllerOp.submit 1 1 (-1) 0, ControllerOp.started 1 1])
            2 1 100 0).1 2 1).2.2,
        cmd = TranscoderCmd.start (2, 1) ∨ cmd = TranscoderCmd.stop (2, 1)) := by
  decide

/-- C5 (amended): for a fresh key (a,b) not pointed at by the current
pointer, submit (a,b) followed by cancel (a,b) restores the controller
state exactly and the commands are confined to the paired start/stop of
(a,b), in each of three regimes.  On an idle controller (no current
session, no queued sessions, resource-lost flag clear) the pair is exactly
a start on submit and a stop on cancel.  With the resource-lost flag set,
no commands are issued at all.  When a RUNNING current session remains the
selector's choice after the enqueue of the new key, no commands are issued
at all.  When (a,b) instead displaces the running current session, an
extra pause command is emitted beyond the paired start/stop, as the
counterexample shows. -/
theorem c5_submit_cancel_roundtrip (c : Controller) (a b u : Int) (r : Nat)
    (hq : QueueInvProp c)
    (hfk : findSession c.sessionMap (a, b) = none)
    (hcne : ¬ (c.currentSession = some (a, b))) :
    (c.resourceLost = false → c.currentSession = none → c.sessionQueues = [] →
      submitD updateCurrentSession c a b u r =
        ({ enqueueSession (insertSession c (a, b) u r) u (a, b) with
            currentSession := some (a, b) }, true, [TranscoderCmd.start (a, b)]) ∧
      cancelD updateCurrentSession
        { enqueueSession (insertSession c (a, b) u r) u (a, b) with
            currentSession := some (a, b) } a b =
        (c, true, [TranscoderCmd.stop (a, b)])) ∧
    (c.resourceLost = true →
      submitD updateCurrentSession c a b u r =
        (enqueueSession (insertSession c (a, b) u r) u (a, b), true, []) ∧
      cancelD updateCurrentSession
        (enqueueSession (insertSession c (a, b) u r) u (a, b)) a b = (c, true, [])) ∧
    (∀ j sj, c.resourceLost = false → c.currentSession = some j →
      findSession c.sessionMap j = some sj → sj.state = SessionState.RUNNING →
      getTopSession c = some j →
      getTopSession (enqueueSession (insertSession c (a, b) u r) u (a, b)) = some j →
      submitD updateCurrentSession c a b u r =
        (enqueueSession (insertSession c (a, b) u r) u (a, b), true, []) ∧
      cancelD updateCurrentSession
        (enqueueSession (insertSession c (a, b) u r) u (a, b)) a b = (c, true, [])) := by
  refine ⟨?_, ?_, ?_⟩
  · intro hrl hcur hqs
    set c2 := enqueueSession (insertSession c (a, b) u r) u (a, b) with hc2def
    have hrl2 : c2.resourceLost = false := hrl
    have hcur2 : c2.currentSession = none := hcur
    have hqs2 : c2.sessionQueues = [(u, [(a, b)])] := by
      show enqueueQueues c.sessionQueues u (a, b) = [(u, [(a, b)])]
      rw [hqs]
      rfl
    have hmem2 : u ∈ c2.uidSortedList := by
      show u ∈ (if u ∈ c.uidSortedList then c.uidSortedList
        else insertBeforeOffline c.uidSortedList u)
      by_cases hu : u ∈ c.uidSortedList
      · rw [if_pos hu]
        exact hu
      · rw [if_neg hu]
        exact (mem_insertBeforeOffline c.uidSortedList u u).mpr (Or.inl rfl)
    have htop2 : getTopSession c2 = some (a, b) := by
      unfold getTopSession
      rw [hqs2]
      exact firstQueueHead_single c2.uidSortedList u (a, b) hmem2
    have hne2 : ¬ (c2.currentSession = getTopSession c2) := by
      rw [hcur2, htop2]
      intro hcon
      exact Option.noConfusion hcon
    have hfind2k : findSession c2.sessionMap (a, b) = some (mkSession (a, b) u r) := by
      show findSession (c.sessionMap ++ [((a, b), mkSession (a, b) u r)]) (a, b) =
        some (mkSession (a, b) u r)
      rw [findSession_append_right _ hfk]
      simp [findSession]
    have hp2 : driverPauseCmds c2 = [] := by
      unfold driverPauseCmds
      rw [hcur2]
    have hst : (mkSession (a, b) u r).state = SessionState.NOT_STARTED := rfl
    have hs2 : driverStartCmds c2 = [TranscoderCmd.start (a, b)] := by
      unfold driverStartCmds
      rw [htop2]
      dsimp only
      rw [hfind2k]
      dsimp only
      rw [if_pos hst]
    have hdrv2 : updateCurrentSession c2 =
        ({ c2 with currentSession := some (a, b) }, [TranscoderCmd.start (a, b)]) := by
      rw [updateCurrentSession_ne_top hrl2 hne2, htop2, hp2, hs2]
      rfl
    refine ⟨?_, ?_⟩
    · unfold submitD
      dsimp only
      rw [hfk]
      dsimp only
      rw [hc2def] at hdrv2
      rw [hdrv2]
    · have hrem : removeSession { c2 with currentSession := some (a, b) } (a, b) = c := by
        have h1 := removeSession_enqueue_insert_cancel c a b u r (some (a, b)) hq hfk
        rw [if_pos rfl] at h1
        rw [← hcur] at h1
        exact h1
      have htop1 : getTopSession c = none := by
        unfold getTopSession
        rw [hqs]
        exact firstQueueHead_nil c.uidSortedList
      have heq1 : c.currentSession = getTopSession c := by
        rw [htop1, hcur]
      have hdrv1 : updateCurrentSession c = (c, []) := by
        rw [updateCurrentSession_eq_top hrl heq1, htop1]
      unfold cancelD
      dsimp only
      rw [hfind2k]
      dsimp only
      rw [hrem, hdrv1, if_pos rfl]
      rfl
  · intro hrl
    set c2 := enqueueSession (insertSession c (a, b) u r) u (a, b) with hc2def
    have hrl2 : c2.resourceLost = true := hrl
    have hfind2k : findSession c2.sessionMap (a, b) = some (mkSession (a, b) u r) := by
      show findSession (c.sessionMap ++ [((a, b), mkSession (a, b) u r)]) (a, b) =
        some (mkSession (a, b) u r)
      rw [findSession_append_right _ hfk]
      simp [findSession]
    have hdrv2 : updateCurrentSession c2 = (c2, []) := updateCurrentSession_flag hrl2
    have hdrv1 : updateCurrentSession c = (c, []) := updateCurrentSession_flag hrl
    refine ⟨?_, ?_⟩
    · unfold submitD
      dsimp only
      rw [hfk]
      dsimp only
      rw [hc2def] at hdrv2
      rw [hdrv2]
    · have hrem : removeSession c2 (a, b) = c := by
        have h1 := removeSession_enqueue_insert_cancel c a b u r c.currentSession hq hfk
        rw [if_neg hcne] at h1
        exact h1
      unfold cancelD
      dsimp only
      rw [hfind2k]
      dsimp only
      have hcne2 : ¬ (c2.currentSession = some (a, b)) := hcne
      rw [hrem, hdrv1, if_neg hcne2]
      rfl
  · intro j sj hrl hcur hj hrun hsel0 hsel
    set c2 := enqueueSession (insertSession c (a, b) u r) u (a, b) with hc2def
    have hrl2 : c2.resourceLost = false := hrl
    have hcur2 : c2.currentSession = some j := hcur
    have hfind2j : findSession c2.sessionMap j = some sj :=
      findSession_append_left _ hj
    have hfind2k : findSession c2.sessionMap (a, b) = some (mkSession (a, b) u r) := by
      show findSession (c.sessionMap ++ [((a, b), mkSession (a, b) u r)]) (a, b) =
        some (mkSession (a, b) u r)
      rw [findSession_append_right _ hfk]
      simp [findSession]
    have hnotpaused : ¬ sj.state = SessionState.PAUSED := by
      rw [hrun]
      intro hcon
      exact SessionState.noConfusion hcon
    have hdrv2 : updateCurrentSession c2 = (c2, []) := by
      have heq2 : c2.currentSession = getTopSession c2 := by
        rw [hsel]
        exact hcur2
      rw [updateCurrentSession_eq_top hrl2 heq2, hsel]
      dsimp only
      rw [hfind2j]
      dsimp only
      rw [if_neg hnotpaused]
    have hdrv1 : updateCurrentSession c = (c, []) := by
      have heq1 : c.currentSession = getTopSession c := by
        rw [hsel0]
        exact hcur
      rw [updateCurrentSession_eq_top hrl heq1, hsel0]
      dsimp only
      rw [hj]
      dsimp only
      rw [if_neg hnotpaused]
    refine ⟨?_, ?_⟩
    · unfold submitD
      dsimp only
      rw [hfk]
      dsimp only
      rw [hc2def] at hdrv2
      rw [hdrv2]
    · have hrem : removeSession c2 (a, b) = c := by
        have h1 := removeSession_enqueue_insert_cancel c a b u r c.currentSession hq hfk
        rw [if_neg hcne] at h1
        exact h1
      unfold cancelD
      dsimp only
      rw [hfind2k]
      dsimp only
      have hcne2 : ¬ (c2.currentSession = some (a, b)) := hcne
      rw [hrem, hdrv1, if_neg hcne2]
      rfl

/-- C5 witness: on the idle initial controller, submitting (1,1) under
uid 100 issues exactly the paired start command and the cancel of (1,1)
issues exactly the paired stop command, restoring the initial state. -/
theorem c5_submit_cancel_roundtrip_witness :
    submitD updateCurrentSession initialController 1 1 100 0 =
      ({ enqueueSession (insertSession initialController (1, 1) 100 0) 100 (1, 1) with
          currentSession := some (1, 1) }, true, [TranscoderCmd.start (1, 1)]) ∧
    cancelD updateCurrentSession
      { enqueueSession (insertSession initialController (1, 1) 100 0) 100 (1, 1) with
          currentSession := some (1, 1) } 1 1 =
      (initialController, true, [TranscoderCmd.stop (1, 1)]) :=
  (c5_submit_cancel_roundtrip initialController 1 1 100 0 (by decide) (by decide)
    (by decide)).1 (by decide) (by decide) (by decide)

end TranscodingModel

namespace TranscodingModel

/-- C6: spurious transcoder callbacks are dropped without any change to
the controller state and without a transcoder command: every one of the
six callbacks with a key absent from the registry leaves the state
unchanged, and onStarted, onPaused, onResumed with a session state that
violates the callback's precondition likewise leave the state unchanged.
The handlers are total functions, so no input can make them crash. -/
theorem c6_spurious_callbacks_dropped (c : Controller) (k : SessionKeyType)
    (p : Int) (err : Nat) :
    (findSession c.sessionMap k = none →
      onStarted c k = c ∧
      onPausedD updateCurrentSession c k = (c, []) ∧
      onResumed c k = c ∧
      onFinishD updateCurrentSession c k = (c, []) ∧
      onErrorD updateCurrentSession c k err = (c, []) ∧
      onProgressUpdate c k p = c) ∧
    (∀ s, findSession c.sessionMap k = some s →
      s.state ≠ SessionState.NOT_STARTED → s.state ≠ SessionState.PAUSED →
      onStarted c k = c) ∧
    (∀ s, findSession c.sessionMap k = some s → s.state ≠ SessionState.RUNNING →
      onPausedD updateCurrentSession c k = (c, [])) ∧
    (∀ s, findSession c.sessionMap k = some s → s.state ≠ SessionState.PAUSED →
      onResumed c k = c) := by
  refine ⟨?_, ?_, ?_, ?_⟩
  · intro hf
    refine ⟨?_, ?_, ?_, ?_, ?_, ?_⟩
    · unfold onStarted
      rw [hf]
    · unfold onPausedD
      rw [hf]
    · unfold onResumed
      rw [hf]
    · unfold onFinishD
      rw [hf]
    · unfold onErrorD
      rw [hf]
    · unfold onProgressUpdate
      rw [hf]
  · intro s hf h1 h2
    unfold onStarted
    rw [hf]
    dsimp only
    rw [if_neg ?_]
    rintro (hc | hc)
    · exact h1 hc
    · exact h2 hc
  · intro s hf h1
    unfold onPausedD
    rw [hf]
    dsimp only
    rw [if_neg h1]
  · intro s hf h1
    unfold onResumed
    rw [hf]
    dsimp only
    rw [if_neg h1]

/-- C6 witness: a spurious onFinish for the unknown key (9,9) on a
concrete reachable state leaves the controller unchanged. -/
theorem c6_spurious_callbacks_dropped_witness :
    onFinishD updateCurrentSession (runOps [ControllerOp.submit 1 1 100 0]) (9, 9) =
      (runOps [ControllerOp.submit 1 1 100 0], []) :=
  ((c6_spurious_callbacks_dropped (runOps [ControllerOp.submit 1 1 100 0]) (9, 9)
    0 0).1 (by decide)).2.2.2.1

/-- C7: the state field of every session record held by the controller is
one of the six spec-level state names NotStarted, Running, Paused,
Finished, Cancelled, Failed.  (The header's enum has only the first three
values, so the claim holds a fortiori: a stored state is never Finished,
Cancelled or Failed — those sessions are removed from the registry.) -/
theorem c7_session_state_names (c : Controller) (k : SessionKeyType) (s : Session)
    (_hf : findSession c.sessionMap k = some s) :
    toSpecState s.state = SpecSessionState.NotStarted ∨
    toSpecState s.state = SpecSessionState.Running ∨
    toSpecState s.state = SpecSessionState.Paused ∨
    toSpecState s.state = SpecSessionState.Finished ∨
    toSpecState s.state = SpecSessionState.Cancelled ∨
    toSpecState s.state = SpecSessionState.Failed := by
  cases hs : s.state with
  | NOT_STARTED =>
      left
      rfl
  | RUNNING =>
      right; left
      rfl
  | PAUSED =>
      right; right; left
      rfl

/-- C7 witness: the running session (1,1) of a concrete reachable state
has a state among the six names. -/
theorem c7_session_state_names_witness :
    toSpecState SessionState.RUNNING = SpecSessionState.NotStarted ∨
    toSpecState SessionState.RUNNING = SpecSessionState.Running ∨
    toSpecState SessionState.RUNNING = SpecSessionState.Paused ∨
    toSpecState SessionState.RUNNING = SpecSessionState.Finished ∨
    toSpecState SessionState.RUNNING = SpecSessionState.Cancelled ∨
    toSpecState SessionState.RUNNING = SpecSessionState.Failed :=
  c7_session_state_names
    (runOps [ControllerOp.submit 1 1 100 0, ControllerOp.started 1 1]) (1, 1)
    (Session.mk (1, 1) 100 SessionState.RUNNING 0 0) (by decide)

/-- C8: the claim as stated fails on the modelled controller: a delivered
progress value is stored unconditionally, so after an update of 50
followed by an update of 30 for session (1,1) the stored last progress has
decreased from 50 to 30. -/
theorem c8_progress_counterexample :
    ¬ (∀ (c : Controller) (k : SessionKeyType) (p old new : Int),
        lastProgressOf c k = some old →
        lastProgressOf (onProgressUpdate c k p) k = some new → old ≤ new) := by
  intro h
  have := h (runOps [ControllerOp.submit 1 1 100 0, ControllerOp.progress 1 1 50])
    (1, 1) 30 50 30 (by decide) (by decide)
  exact absurd this (by decide)

/-- C8 (amended): the stored last progress of a session always equals the
most recently delivered progress value; decreasing updates are accepted
and stored, so the stored value is not monotonic. -/
theorem c8_progress_last_write (c : Controller) (k : SessionKeyType) (p : Int)
    (s : Session) (hf : findSession c.sessionMap k = some s) :
    lastProgressOf (onProgressUpdate c k p) k = some p := by
  unfold onProgressUpdate
  rw [hf]
  dsimp only
  unfold lastProgressOf
  show (findSession (updateSessionF c.sessionMap k
    (fun s2 => { s2 with lastProgress := p })) k).map Session.lastProgress = some p
  rw [findSession_updateSessionF_self, hf]
  rfl

/-- C8 witness: after delivering progress 30 to session (1,1) the stored
value is 30. -/
theorem c8_progress_last_write_witness :
    lastProgressOf (onProgressUpdate
      (runOps [ControllerOp.submit 1 1 100 0, ControllerOp.progress 1 1 50])
      (1, 1) 30) (1, 1) = some 30 :=
  c8_progress_last_write
    (runOps [ControllerOp.submit 1 1 100 0, ControllerOp.progress 1 1 50])
    (1, 1) 30 (Session.mk (1, 1) 100 SessionState.NOT_STARTED 50 0) (by decide)

end TranscodingModel

namespace SimulatedTranscoderModel

theorem not_startResume_of_pauseStop {e : SimEvent}
    (h : e.type = SimEventType.Pause ∨ e.type = SimEventType.Stop) :
    ¬ (e.type = SimEventType.Start ∨ e.type = SimEventType.Resume) := by
  rintro (hc | hc) <;> rcases h with h | h <;> rw [hc] at h <;>
    exact SimEventType.noConfusion h

theorem not_pauseStop_of_startResume {e : SimEvent}
    (h : e.type = SimEventType.Start ∨ e.type = SimEventType.Resume) :
    ¬ (e.type = SimEventType.Pause ∨ e.type = SimEventType.Stop) := by
  rintro (hc | hc) <;> rcases h with h | h <;> rw [hc] at h <;>
    exact SimEventType.noConfusion h

/-- C9: in the SimulatedTranscoder event loop, a Start or Resume event is
acted upon (running flag set, runnable invoked when attached) exactly when
no session is running; a Pause or Stop event is acted upon (running flag
cleared, runnable invoked when attached) exactly when a session is
running; any other event is discarded: no runnable is invoked and the
state is unchanged. -/
theorem c9_event_gating (s : SimState) (now : Int) (e : SimEvent) :
    (s.running = false → (e.type = SimEventType.Start ∨ e.type = SimEventType.Resume) →
      (processEvent s now e).1.running = true ∧
      (processEvent s now e).2 = e.hasRunnable) ∧
    (s.running = true → (e.type = SimEventType.Pause ∨ e.type = SimEventType.Stop) →
      (processEvent s now e).1.running = false ∧
      (processEvent s now e).2 = e.hasRunnable) ∧
    (s.running = true → (e.type = SimEventType.Start ∨ e.type = SimEventType.Resume) →
      processEvent s now e = (s, false)) ∧
    (s.running = false → (e.type = SimEventType.Pause ∨ e.type = SimEventType.Stop) →
      processEvent s now e = (s, false)) := by
  refine ⟨?_, ?_, ?_, ?_⟩
  · intro h1 h2
    unfold processEvent
    rw [if_pos ⟨h1, h2⟩]
    exact ⟨rfl, rfl⟩
  · intro h1 h2
    unfold processEvent
    rw [if_neg (fun hc => by rw [h1] at hc; exact Bool.noConfusion hc.1)]
    rw [if_pos ⟨h1, h2⟩]
    exact ⟨rfl, rfl⟩
  · intro h1 h2
    unfold processEvent
    rw [if_neg (fun hc => by rw [h1] at hc; exact Bool.noConfusion hc.1)]
    rw [if_neg (fun hc => not_pauseStop_of_startResume h2 hc.2)]
  · intro h1 h2
    unfold processEvent
    rw [if_neg (fun hc => not_startResume_of_pauseStop h2 hc.2)]
    rw [if_neg (fun hc => by rw [h1] at hc; exact Bool.noConfusion hc.1)]

/-- C9 witness: from an idle loop a Start event for session (1,1) sets the
running flag and invokes the attached runnable. -/
theorem c9_event_gating_witness :
    (processEvent (SimState.mk false 0 0 (0, 0) 10) 5
      (SimEvent.mk SimEventType.Start 1 1 true)).1.running = true ∧
    (processEvent (SimState.mk false 0 0 (0, 0) 10) 5
      (SimEvent.mk SimEventType.Start 1 1 true)).2 =
      (SimEvent.mk SimEventType.Start 1 1 true).hasRunnable :=
  (c9_event_gating (SimState.mk false 0 0 (0, 0) 10) 5
    (SimEvent.mk SimEventType.Start 1 1 true)).1 (by decide) (by decide)

theorem simGhostStep_sum {g : SimGhost} {op : SimTimedOp}
    (hop : pauseResumeOnly op) :
    (simGhostStep g op).accUs + (simGhostStep g op).sim.remainingUs =
      g.accUs + g.sim.remainingUs := by
  cases op with
  | wake now =>
      unfold simGhostStep
      dsimp only
      by_cases hr : g.sim.running = true
      · rw [if_pos hr]
        dsimp only
        omega
      · rw [if_neg hr]
  | ev now e =>
      rcases hop with ht | ht
      · by_cases hr : g.sim.running = true
        · unfold simGhostStep
          dsimp only
          rw [if_pos ⟨hr, Or.inl ht⟩]
          dsimp only
          unfold processEvent
          rw [if_neg (fun hc => not_startResume_of_pauseStop (Or.inl ht) hc.2)]
          rw [if_pos ⟨hr, Or.inl ht⟩]
          dsimp only
          omega
        · unfold simGhostStep
          dsimp only
          rw [if_neg (fun hc => hr hc.1)]
          dsimp only
          unfold processEvent
          rw [if_neg (fun hc => not_startResume_of_pauseStop (Or.inl ht) hc.2)]
          rw [if_neg (fun hc => hr hc.1)]
      · by_cases hr : g.sim.running = true
        · unfold simGhostStep
          dsimp only
          rw [if_neg (fun hc => not_pauseStop_of_startResume (Or.inr ht) hc.2)]
          dsimp only
          unfold processEvent
          rw [if_neg (fun hc => by rw [hr] at hc; exact Bool.noConfusion hc.1)]
          rw [if_neg (fun hc => not_pauseStop_of_startResume (Or.inr ht) hc.2)]
        · unfold simGhostStep
          dsimp only
          rw [if_neg (fun hc => not_pauseStop_of_startResume (Or.inr ht) hc.2)]
          dsimp only
          unfold processEvent
          have hrf : g.sim.running = false := by
            cases hb : g.sim.running
            · rfl
            · exact absurd hb hr
          rw [if_pos ⟨hrf, Or.inr ht⟩]
          dsimp only
          rw [if_neg (show ¬ e.type = SimEventType.Start by
            rw [ht]; intro hc; exact SimEventType.noConfusion hc)]

theorem simGhostRun_sum (ops : List SimTimedOp) :
    ∀ g : SimGhost, (∀ op ∈ ops, pauseResumeOnly op) →
    (List.foldl simGhostStep g ops).accUs +
      (List.foldl simGhostStep g ops).sim.remainingUs =
      g.accUs + g.sim.remainingUs := by
  induction ops with
  | nil =>
      intro g _
      rfl
  | cons op rest ih =>
      intro g hops
      rw [List.foldl_cons]
      rw [ih (simGhostStep g op) (fun o ho => hops o (List.mem_cons_of_mem _ ho))]
      exact simGhostStep_sum (hops op (List.mem_cons_self _ _))

/-- C10: only an accepted Start event resets the remaining session life to
the configured total (1000 * mSessionProcessingTimeMs microseconds); an
accepted Resume continues with the remainder; an accepted Pause or Stop
subtracts the wall-clock time spent running since the last Start or
Resume; consequently, over any interleaving of pause and resume events
(and spurious wakeups) after a Start, the accumulated wall-clock running
time plus the remaining life always equals the configured total — so when
the loop times out and reports onFinish, the cumulative running time
equals the configured processing time. -/
theorem c10_processing_time :
    (∀ (s : SimState) (now : Int) (e : SimEvent), s.running = false →
      e.type = SimEventType.Start →
      (processEvent s now e).1.remainingUs = 1000 * s.processingTimeMs) ∧
    (∀ (s : SimState) (now : Int) (e : SimEvent), s.running = false →
      e.type = SimEventType.Resume →
      (processEvent s now e).1.remainingUs = s.remainingUs) ∧
    (∀ (s : SimState) (now : Int) (e : SimEvent), s.running = true →
      (e.type = SimEventType.Pause ∨ e.type = SimEventType.Stop) →
      (processEvent s now e).1.remainingUs =
        s.remainingUs - (now - s.lastRunningTime)) ∧
    (∀ (t0 tMs cid sid : Int) (ops : List SimTimedOp),
      (∀ op ∈ ops, pauseResumeOnly op) →
      (List.foldl simGhostStep (startedGhost t0 tMs cid sid) ops).accUs +
        (List.foldl simGhostStep (startedGhost t0 tMs cid sid) ops).sim.remainingUs =
        1000 * tMs) := by
  refine ⟨?_, ?_, ?_, ?_⟩
  · intro s now e h1 h2
    unfold processEvent
    rw [if_pos ⟨h1, Or.inl h2⟩]
    dsimp only
    rw [if_pos h2]
  · intro s now e h1 h2
    unfold processEvent
    rw [if_pos ⟨h1, Or.inr h2⟩]
    dsimp only
    rw [if_neg (show ¬ e.type = SimEventType.Start by
      rw [h2]; intro hc; exact SimEventType.noConfusion hc)]
  · intro s now e h1 h2
    unfold processEvent
    rw [if_neg (fun hc => by rw [h1] at hc; exact Bool.noConfusion hc.1)]
    rw [if_pos ⟨h1, h2⟩]
  · intro t0 tMs cid sid ops hops
    rw [simGhostRun_sum ops (startedGhost t0 tMs cid sid) hops]
    show 0 + 1000 * tMs = 1000 * tMs
    omega

/-- C10 witness: a session started at time 0 with 10 ms processing time,
paused at 3, resumed at 5, woken at 6, paused at 8 and resumed at 9:
the accumulated running time plus the remainder equals 10000 us. -/
theorem c10_processing_time_witness :
    (List.foldl simGhostStep (startedGhost 0 10 1 1)
      [SimTimedOp.ev 3 (SimEvent.mk SimEventType.Pause 1 1 true),
       SimTimedOp.ev 5 (SimEvent.mk SimEventType.Resume 1 1 true),
       SimTimedOp.wake 6,
       SimTimedOp.ev 8 (SimEvent.mk SimEventType.Pause 1 1 true),
       SimTimedOp.ev 9 (SimEvent.mk SimEventType.Resume 1 1 true)]).accUs +
    (List.foldl simGhostStep (startedGhost 0 10 1 1)
      [SimTimedOp.ev 3 (SimEvent.mk SimEventType.Pause 1 1 true),
       SimTimedOp.ev 5 (SimEvent.mk SimEventType.Resume 1 1 true),
       SimTimedOp.wake 6,
       SimTimedOp.ev 8 (SimEvent.mk SimEventType.Pause 1 1 true),
       SimTimedOp.ev 9 (SimEvent.mk SimEventType.Resume 1 1 true)]).sim.remainingUs =
    1000 * 10 :=
  c10_processing_time.2.2.2 0 10 1 1
    [SimTimedOp.ev 3 (SimEvent.mk SimEventType.Pause 1 1 true),
     SimTimedOp.ev 5 (SimEvent.mk SimEventType.Resume 1 1 true),
     SimTimedOp.wake 6,
     SimTimedOp.ev 8 (SimEvent.mk SimEventType.Pause 1 1 true),
     SimTimedOp.ev 9 (SimEvent.mk SimEventType.Resume 1 1 true)] (by decide)

end SimulatedTranscoderModel

